import Mathlib

/-!
Verification of the ingestion-normalization-delivery pipeline of this
repository: the format sniffer and record extractor in
`src/utils/data_parser.py`, the preview/save/upload logic in
`src/utils/helper.py`, and the environment-mode selection in
`src/utils/config_manager.py`.

Python strings are modelled as `List Char`.  Python's `json` module is
modelled by an executable recursive-descent parser (`jsonLoads`) and
renderer (`dumpsF`) over the inductive value type `Jval`; numbers are kept
as an integer part plus the literal fraction/exponent suffix, which agrees
byte-for-byte with Python for integer-valued JSON (the only numbers the
claims exercise).  All definitions are executable.
-/

abbrev Str := List Char

/-- Python `str` whitespace (ASCII fragment): the characters stripped by
`str.strip()` and matched by the regex class backslash-s. -/
def isPyWs (c : Char) : Bool :=
  c == ' ' || c == '\t' || c == '\n' || c == '\r' || c == '\x0b' || c == '\x0c'

/-- Python `str.strip()`: drop whitespace from both ends. -/
def pyStrip (s : Str) : Str :=
  List.rdropWhile isPyWs (List.dropWhile isPyWs s)

/-- Python `text.split(chr(10))`: split on newline, keeping empty pieces;
the result is always nonempty (splitting the empty string gives one empty
piece, as in Python). -/
def splitNl : Str → List Str
  | [] => [[]]
  | c :: cs =>
    if c = '\n' then [] :: splitNl cs
    else
      match splitNl cs with
      | [] => [[c]]
      | l :: ls => (c :: l) :: ls

/-- Python `chr(10).join(lines)`. -/
def joinNl : List Str → Str
  | [] => []
  | [l] => l
  | l :: ls => l ++ '\n' :: joinNl ls

/-- Byte length of one character under UTF-8, as produced by Python
`str.encode("utf-8")`. -/
def charBytes (c : Char) : Nat :=
  if c.toNat < 128 then 1
  else if c.toNat < 2048 then 2
  else if c.toNat < 65536 then 3
  else 4

/-- Byte length of a string under UTF-8: Python `len(s.encode("utf-8"))`. -/
def utf8Len (s : Str) : Nat :=
  (s.map charBytes).sum

/-- Python substring containment `pat in s`. -/
def containsSub (pat : Str) : Str → Bool
  | [] => pat.isEmpty
  | c :: cs => List.isPrefixOf pat (c :: cs) || containsSub pat cs

/-- Boolean membership of a string in a list of strings (Python `in` on a
list of column names). -/
def memB (x : Str) : List Str → Bool
  | [] => false
  | y :: ys => x == y || memB x ys

/-- A line is non-blank when `line.strip()` is nonempty, i.e. it has a
non-whitespace character. -/
def nonBlank (l : Str) : Bool :=
  !(pyStrip l).isEmpty

/-- Number of non-blank lines of a text. -/
def countNB (s : Str) : Nat :=
  ((splitNl s).filter nonBlank).length

/-- The detected data format: the `DataFormat` enum of
`src/utils/data_parser.py` (lines 23-31). -/
inductive DataFormat where
  | CSV
  | JSONL
  | JSON_ARRAY
  | JSON_OBJECT
  | API_RESPONSE
  | EMPTY
  | UNKNOWN
deriving DecidableEq, Repr

/-- A JSON value as produced by Python `json.loads`.  A number is stored as
its integer part plus the literal fraction/exponent suffix (empty for
integers); objects are association lists in source order (objects with
duplicate keys are outside the model). -/
inductive Jval where
  | jnull : Jval
  | jbool : Bool → Jval
  | jnum : Int → Str → Jval
  | jstr : Str → Jval
  | jarr : List Jval → Jval
  | jobj : List (Str × Jval) → Jval

/-- JSON inter-token whitespace accepted by Python `json.loads` (strict
mode): space, tab, newline, carriage return only. -/
def isJsonWs (c : Char) : Bool :=
  c == ' ' || c == '\t' || c == '\n' || c == '\r'

/-- Skip JSON whitespace. -/
def skipWsJ (cs : Str) : Str :=
  cs.dropWhile isJsonWs

/-- Decimal digit. -/
def isDigitCh (c : Char) : Bool :=
  '0' ≤ c && c ≤ '9'

/-- Take a maximal run of digits. -/
def takeDigits : Str → Str × Str
  | [] => ([], [])
  | c :: cs =>
    if isDigitCh c then
      let p := takeDigits cs
      (c :: p.1, p.2)
    else ([], c :: cs)

/-- Numeric value of a digit string. -/
def digitsToNat (ds : Str) : Nat :=
  ds.foldl (fun acc c => acc * 10 + (c.toNat - '0'.toNat)) 0

/-- Hexadecimal digit value, for backslash-u escapes, via the character
code: digits 48-57, lowercase letters 97-102, uppercase letters 65-70. -/
def hexVal (c : Char) : Option Nat :=
  let n := c.toNat
  if 48 ≤ n && n ≤ 57 then some (n - 48)
  else if 97 ≤ n && n ≤ 102 then some (n - 87)
  else if 65 ≤ n && n ≤ 70 then some (n - 55)
  else none

/-- Parse the body of a JSON string after the opening quote, decoding
escapes; returns the decoded content and the input after the closing
quote.  Raw control characters are rejected (Python strict mode). -/
def parseStringBody : Str → Option (Str × Str)
  | [] => none
  | c :: rest =>
    if c = '"' then some ([], rest)
    else if c = '\\' then
      match rest with
      | 'n' :: r => (parseStringBody r).map (fun p => ('\n' :: p.1, p.2))
      | 't' :: r => (parseStringBody r).map (fun p => ('\t' :: p.1, p.2))
      | 'r' :: r => (parseStringBody r).map (fun p => ('\r' :: p.1, p.2))
      | 'b' :: r => (parseStringBody r).map (fun p => ('\x08' :: p.1, p.2))
      | 'f' :: r => (parseStringBody r).map (fun p => ('\x0c' :: p.1, p.2))
      | '"' :: r => (parseStringBody r).map (fun p => ('"' :: p.1, p.2))
      | '\\' :: r => (parseStringBody r).map (fun p => ('\\' :: p.1, p.2))
      | '/' :: r => (parseStringBody r).map (fun p => ('/' :: p.1, p.2))
      | 'u' :: a :: b :: c2 :: d :: r =>
        match hexVal a, hexVal b, hexVal c2, hexVal d with
        | some ha, some hb, some hc, some hd =>
          (parseStringBody r).map
            (fun p => (Char.ofNat (((ha * 16 + hb) * 16 + hc) * 16 + hd) :: p.1, p.2))
        | _, _, _, _ => none
      | _ => none
    else if c.toNat < 32 then none
    else (parseStringBody rest).map (fun p => (c :: p.1, p.2))

/-- Fraction lexeme of a JSON number: a dot followed by at least one
digit; otherwise nothing is consumed. -/
def parseFracPart : Str → Str × Str
  | '.' :: r =>
    if (takeDigits r).1.isEmpty then ([], '.' :: r)
    else ('.' :: (takeDigits r).1, (takeDigits r).2)
  | r1 => ([], r1)

/-- Exponent lexeme of a JSON number: `e`/`E`, optional sign, at least one
digit; otherwise nothing is consumed. -/
def parseExpPart : Str → Str × Str
  | 'e' :: '+' :: r =>
    if (takeDigits r).1.isEmpty then ([], 'e' :: '+' :: r)
    else ('e' :: '+' :: (takeDigits r).1, (takeDigits r).2)
  | 'e' :: '-' :: r =>
    if (takeDigits r).1.isEmpty then ([], 'e' :: '-' :: r)
    else ('e' :: '-' :: (takeDigits r).1, (takeDigits r).2)
  | 'e' :: r =>
    if (takeDigits r).1.isEmpty then ([], 'e' :: r)
    else ('e' :: (takeDigits r).1, (takeDigits r).2)
  | 'E' :: '+' :: r =>
    if (takeDigits r).1.isEmpty then ([], 'E' :: '+' :: r)
    else ('E' :: '+' :: (takeDigits r).1, (takeDigits r).2)
  | 'E' :: '-' :: r =>
    if (takeDigits r).1.isEmpty then ([], 'E' :: '-' :: r)
    else ('E' :: '-' :: (takeDigits r).1, (takeDigits r).2)
  | 'E' :: r =>
    if (takeDigits r).1.isEmpty then ([], 'E' :: r)
    else ('E' :: (takeDigits r).1, (takeDigits r).2)
  | r2 => ([], r2)

/-- Digits, fraction and exponent of a JSON number after the optional
sign: the integer part must be nonempty and free of leading zeros, and a
dot must be followed by digits. -/
def parseNumCore (neg : Bool) (cs1 : Str) : Option (Jval × Str) :=
  if (takeDigits cs1).1.isEmpty then none
  else if (takeDigits cs1).1.head? = some '0'
      && (takeDigits cs1).1.length != 1 then none
  else if (parseFracPart (takeDigits cs1).2).1.isEmpty
      && (match (takeDigits cs1).2 with | '.' :: _ => true | _ => false) then none
  else
    some (Jval.jnum
      (if neg then -(digitsToNat (takeDigits cs1).1 : Int)
       else (digitsToNat (takeDigits cs1).1 : Int))
      ((parseFracPart (takeDigits cs1).2).1
        ++ (parseExpPart (parseFracPart (takeDigits cs1).2).2).1),
      (parseExpPart (parseFracPart (takeDigits cs1).2).2).2)

/-- Parse a JSON number: optional minus, integer part without leading
zeros, optional fraction, optional exponent.  The value keeps the integer
part as an `Int` and the fraction/exponent text verbatim. -/
def parseNum (cs : Str) : Option (Jval × Str) :=
  match cs with
  | '-' :: cs1 => parseNumCore true cs1
  | _ => parseNumCore false cs

mutual

/-- Recursive-descent JSON value parser (model of Python `json.loads`),
total by fuel.  Dispatches on the first non-whitespace character. -/
def parseVal : Nat → Str → Option (Jval × Str)
  | 0, _ => none
  | fuel + 1, cs =>
    match skipWsJ cs with
    | '\x7b' :: rest => parseObjBody fuel rest
    | '[' :: rest => parseArrBody fuel rest
    | '"' :: rest => (parseStringBody rest).map (fun p => (Jval.jstr p.1, p.2))
    | 't' :: 'r' :: 'u' :: 'e' :: rest => some (Jval.jbool true, rest)
    | 'f' :: 'a' :: 'l' :: 's' :: 'e' :: rest => some (Jval.jbool false, rest)
    | 'n' :: 'u' :: 'l' :: 'l' :: rest => some (Jval.jnull, rest)
    | cs' => parseNum cs'

/-- Parse an object body after the opening brace. -/
def parseObjBody : Nat → Str → Option (Jval × Str)
  | 0, _ => none
  | fuel + 1, cs =>
    match skipWsJ cs with
    | '\x7d' :: rest => some (Jval.jobj [], rest)
    | cs' => (parseMembers fuel cs').map (fun p => (Jval.jobj p.1, p.2))

/-- Parse one or more `key : value` members followed by the closing
brace. -/
def parseMembers : Nat → Str → Option (List (Str × Jval) × Str)
  | 0, _ => none
  | fuel + 1, cs =>
    match skipWsJ cs with
    | '"' :: rest =>
      match parseStringBody rest with
      | none => none
      | some (key, rest1) =>
        match skipWsJ rest1 with
        | ':' :: rest2 =>
          match parseVal fuel rest2 with
          | none => none
          | some (v, rest3) =>
            match skipWsJ rest3 with
            | ',' :: rest4 =>
              match parseMembers fuel rest4 with
              | none => none
              | some (ms, rest5) => some ((key, v) :: ms, rest5)
            | '\x7d' :: rest4 => some ([(key, v)], rest4)
            | _ => none
        | _ => none
    | _ => none

/-- Parse an array body after the opening bracket. -/
def parseArrBody : Nat → Str → Option (Jval × Str)
  | 0, _ => none
  | fuel + 1, cs =>
    match skipWsJ cs with
    | ']' :: rest => some (Jval.jarr [], rest)
    | cs' => (parseElems fuel cs').map (fun p => (Jval.jarr p.1, p.2))

/-- Parse one or more array elements followed by the closing bracket. -/
def parseElems : Nat → Str → Option (List Jval × Str)
  | 0, _ => none
  | fuel + 1, cs =>
    match parseVal fuel cs with
    | none => none
    | some (v, rest) =>
      match skipWsJ rest with
      | ',' :: rest1 =>
        match parseElems fuel rest1 with
        | none => none
        | some (es, rest2) => some (v :: es, rest2)
      | ']' :: rest1 => some ([v], rest1)
      | _ => none

end

/-- Model of Python `json.loads`: parse one value, then require only
whitespace to remain.  The fuel is a conservative bound: every recursive
step consumes input, so nesting depth never exceeds the length. -/
def jsonLoads (cs : Str) : Option Jval :=
  match parseVal (3 * cs.length + 3) cs with
  | some (v, rest) => if (skipWsJ rest).isEmpty then some v else none
  | none => none

/-- Coerce a Lean string literal into the `List Char` representation. -/
def strLit (s : String) : Str := s.data

/-- Decimal digits of a natural number, as Python `str`. -/
def natRepr (n : Nat) : Str := Nat.toDigits 10 n

/-- Decimal rendering of an integer, as Python `str`. -/
def intRepr : Int → Str
  | Int.ofNat m => natRepr m
  | Int.negSucc m => '-' :: natRepr (m + 1)

/-- Lower-case hexadecimal digit. -/
def hexDigitCh (n : Nat) : Char :=
  if n < 10 then Char.ofNat ('0'.toNat + n) else Char.ofNat ('a'.toNat + n - 10)

/-- Escape one character as Python `json.dumps(..., ensure_ascii=False)`
does: quote, backslash and control characters only. -/
def escChar (c : Char) : Str :=
  if c = '"' then ['\\', '"']
  else if c = '\\' then ['\\', '\\']
  else if c = '\n' then ['\\', 'n']
  else if c = '\t' then ['\\', 't']
  else if c = '\r' then ['\\', 'r']
  else if c = '\x08' then ['\\', 'b']
  else if c = '\x0c' then ['\\', 'f']
  else if c.toNat < 32 then
    ['\\', 'u', '0', '0', hexDigitCh (c.toNat / 16), hexDigitCh (c.toNat % 16)]
  else [c]

/-- Render a JSON string with quotes and escapes. -/
def quoteJ (s : Str) : Str :=
  '"' :: (s.map escChar).flatten ++ ['"']

/-- Join pieces with a separator. -/
def joinSep (sep : Str) : List Str → Str
  | [] => []
  | [x] => x
  | x :: xs => x ++ sep ++ joinSep sep xs

/-- Model of Python `json.dumps(v, ensure_ascii=False)` with the default
separators (comma-space and colon-space), total by fuel on nesting depth.
Calls pass fuel no smaller than the length of the text the value was
parsed from, which bounds its depth. -/
def dumpsF : Nat → Jval → Str
  | 0, _ => []
  | _ + 1, Jval.jnull => strLit ("null")
  | _ + 1, Jval.jbool true => strLit ("true")
  | _ + 1, Jval.jbool false => strLit ("false")
  | _ + 1, Jval.jnum n suf => intRepr n ++ suf
  | _ + 1, Jval.jstr s => quoteJ s
  | fuel + 1, Jval.jarr es =>
    '[' :: joinSep [',', ' '] (es.map (dumpsF fuel)) ++ [']']
  | fuel + 1, Jval.jobj ms =>
    '\x7b' :: joinSep [',', ' ']
      (ms.map (fun kv => quoteJ kv.1 ++ ':' :: ' ' :: dumpsF fuel kv.2)) ++ ['\x7d']

/-- The prioritized list of envelope data fields:
`API_RESPONSE_DATA_KEYS` of `data_parser.py` (lines 37-45). -/
def apiRespDataKeys : List Str :=
  [strLit ("results"), strLit ("data"), strLit ("items"), strLit ("records"),
   strLit ("rows"), strLit ("list"), strLit ("content")]

/-- Metadata field names tested by `_is_api_response` (line 200). -/
def apiMetaKeys : List Str :=
  [strLit ("code"), strLit ("status"), strLit ("success"),
   strLit ("message"), strLit ("msg")]

/-- First-match lookup in a parsed JSON object (Python `key in data` /
`data[key]`). -/
def dictGet (ms : List (Str × Jval)) (k : Str) : Option Jval :=
  match ms with
  | [] => none
  | (k', v) :: rest => if k == k' then some v else dictGet rest k

/-- Python `isinstance(v, list)` on a parsed JSON value. -/
def isListVal : Jval → Bool
  | Jval.jarr _ => true
  | _ => false

/-- Model of `_is_api_response` (lines 185-203): a known data key holds a
list, or a metadata key is present and some field holds a list. -/
def isApiResponse (ms : List (Str × Jval)) : Bool :=
  apiRespDataKeys.any (fun k =>
    match dictGet ms k with
    | some v => isListVal v
    | none => false)
  || (apiMetaKeys.any (fun k => (dictGet ms k).isSome)
      && ms.any (fun kv => isListVal kv.2))

/-- First known data key whose value is a list, in priority order. -/
def firstApiKey : List Str → List (Str × Jval) → Option (List Jval × Str)
  | [], _ => none
  | k :: ks, ms =>
    match dictGet ms k with
    | some (Jval.jarr es) => some (es, k)
    | _ => firstApiKey ks ms

/-- First member of the object whose value is a list. -/
def firstListMember : List (Str × Jval) → Option (List Jval × Str)
  | [] => none
  | (k, Jval.jarr es) :: _ => some (es, k)
  | _ :: rest => firstListMember rest

/-- Model of `_extract_data_from_api_response` (lines 206-227). -/
def extractDataFromApiResponse (ms : List (Str × Jval)) : List Jval × Str :=
  match firstApiKey apiRespDataKeys ms with
  | some r => r
  | none =>
    match firstListMember ms with
    | some r => r
    | none => ([], [])

/-- Quote a key token as it appears in the heuristic substring tests. -/
def quoteTok (k : Str) : Str :=
  '"' :: k ++ ['"']

/-- Model of `_detect_api_response_heuristic` (lines 155-168): the text
contains a quoted `code` or `status` token and a quoted known data-key
token. -/
def detectApiResponseHeuristic (s : Str) : Bool :=
  (containsSub (quoteTok (strLit ("code"))) s
     || containsSub (quoteTok (strLit ("status"))) s)
  && apiRespDataKeys.any (fun k => containsSub (quoteTok k) s)

/-- Identifier-start character of the key regex. -/
def isIdentStart (c : Char) : Bool :=
  ('a' ≤ c && c ≤ 'z') || ('A' ≤ c && c ≤ 'Z') || c == '_'

/-- Identifier character of the key regex. -/
def isIdentCh (c : Char) : Bool :=
  isIdentStart c || isDigitCh c

/-- After the closing quote of the key: optional whitespace then colon. -/
def keyPatColon : Str → Bool
  | [] => false
  | c :: rest => if isPyWs c then keyPatColon rest else c == ':'

/-- After the first identifier character: more identifier characters, then
the closing quote and colon part. -/
def keyPatIdent : Str → Bool
  | [] => false
  | c :: rest =>
    if isIdentCh c then keyPatIdent rest
    else if c == '"' then keyPatColon rest
    else false

/-- Whether the key regex matches at this position. -/
def keyPatAt : Str → Bool
  | '"' :: c :: rest => isIdentStart c && keyPatIdent rest
  | _ => false

/-- Model of `_detect_json_object_heuristic` (lines 171-182): an unanchored
search for a quoted identifier followed by optional whitespace and a
colon. -/
def detectJsonObjectHeuristic : Str → Bool
  | [] => false
  | c :: cs => keyPatAt (c :: cs) || detectJsonObjectHeuristic cs

/-- The per-line check of `detect_format`'s JSON-Lines loop (lines 92-102):
blank lines are skipped, other lines must parse as JSON objects.  Only the
first five lines are inspected by the caller. -/
def validFirst5 (lines : List Str) : Bool :=
  (lines.take 5).all fun l =>
    let t := pyStrip l
    t.isEmpty ||
      (match jsonLoads t with
       | some (Jval.jobj _) => true
       | _ => false)

/-- Step 1 of `detect_format` (lines 83-109), on the stripped text: if the
first line starts with a brace, ends with a brace and parses, classify as
JSONL (several lines, first five valid) or JSON_OBJECT (single line);
otherwise fall through. -/
def detectStep1 (s : Str) : Option DataFormat :=
  let lines := splitNl s
  let fl := pyStrip (lines.headD [])
  if (fl.head? == some '\x7b') && (fl.getLast? == some '\x7d') then
    match jsonLoads fl with
    | some _ =>
      if lines.length > 1 then
        if validFirst5 lines then some DataFormat.JSONL else none
      else some DataFormat.JSON_OBJECT
    | none => none
  else none

/-- Model of `detect_format` (lines 68-152). -/
def detectFormat (text : Str) : DataFormat :=
  if (pyStrip text).isEmpty then DataFormat.EMPTY
  else
    let s := pyStrip text
    match detectStep1 s with
    | some f => f
    | none =>
      let arrRes : Option DataFormat :=
        if s.head? == some '[' then
          match jsonLoads s with
          | some (Jval.jarr _) => some DataFormat.JSON_ARRAY
          | _ => none
        else none
      match arrRes with
      | some f => f
      | none =>
        let objRes : Option DataFormat :=
          if s.head? == some '\x7b' then
            match jsonLoads s with
            | some (Jval.jobj ms) =>
              some (if isApiResponse ms then DataFormat.API_RESPONSE
                    else DataFormat.JSON_OBJECT)
            | some _ => none
            | none =>
              if detectApiResponseHeuristic s then some DataFormat.API_RESPONSE
              else if detectJsonObjectHeuristic s then some DataFormat.JSON_OBJECT
              else none
          else none
        match objRes with
        | some f => f
        | none =>
          if !(s.head? == some '\x7b') && !(s.head? == some '[') then
            let fl := pyStrip ((splitNl s).headD [])
            if fl.contains ',' || fl.contains '\t' then DataFormat.CSV
            else DataFormat.UNKNOWN
          else DataFormat.UNKNOWN

/-- Warnings raised by the converter (the `logging.warning` calls). -/
inductive Warn where
  | skippedLine
  | noListData
  | unknownFormat
deriving DecidableEq, Repr

/-- Result of `convert_to_jsonl`: content, row count, format, and the
warnings raised along the way. -/
structure ConvertResult where
  content : Str
  rowCount : Nat
  fmt : DataFormat
  warnings : List Warn
deriving DecidableEq, Repr

/-- The line loop of `_convert_jsonl` (lines 284-294): keep each stripped
non-blank line that parses, count it; warn on each invalid line. -/
def convertJsonlLines : List Str → List Str × Nat × List Warn
  | [] => ([], 0, [])
  | l :: ls =>
    let s := pyStrip l
    let r := convertJsonlLines ls
    if s.isEmpty then r
    else
      match jsonLoads s with
      | some _ => (s :: r.1, r.2.1 + 1, r.2.2)
      | none => (r.1, r.2.1, Warn.skippedLine :: r.2.2)

/-- Model of `_convert_jsonl` (lines 282-295). -/
def convertJsonl (text : Str) : ConvertResult :=
  let r := convertJsonlLines (splitNl (pyStrip text))
  ⟨joinNl r.1, r.2.1, DataFormat.JSONL, r.2.2⟩

/-- Model of `_convert_json_array` (lines 298-302); `none` models the
exception raised when the text does not parse as a list. -/
def convertJsonArray (text : Str) : Option ConvertResult :=
  match jsonLoads text with
  | some (Jval.jarr es) =>
    some ⟨joinNl (es.map (dumpsF (text.length + 1))), es.length,
          DataFormat.JSON_ARRAY, []⟩
  | _ => none

/-- Model of `_convert_api_response` (lines 305-317). -/
def convertApiResponse (text : Str) : Option ConvertResult :=
  match jsonLoads text with
  | some (Jval.jobj ms) =>
    match extractDataFromApiResponse ms with
    | ([], _) =>
      some ⟨dumpsF (text.length + 1) (Jval.jobj ms), 1,
            DataFormat.JSON_OBJECT, [Warn.noListData]⟩
    | (es, _) =>
      some ⟨joinNl (es.map (dumpsF (text.length + 1))), es.length,
            DataFormat.API_RESPONSE, []⟩
  | _ => none

/-- Model of `_convert_json_object` (lines 320-323). -/
def convertJsonObject (text : Str) : Option ConvertResult :=
  match jsonLoads text with
  | some v => some ⟨dumpsF (text.length + 1) v, 1, DataFormat.JSON_OBJECT, []⟩
  | none => none

/-- Python `line.split(chr(44))`: split on comma, keeping empty pieces. -/
def splitComma : Str → List Str
  | [] => [[]]
  | c :: cs =>
    if c = ',' then [] :: splitComma cs
    else
      match splitComma cs with
      | [] => [[c]]
      | l :: ls => (c :: l) :: ls

/-- A cell as typed by the tabular parser: missing, numeric (integer part
plus literal fraction/exponent suffix), or text.  The int/float dtype
distinction of the underlying library is abstracted; it does not affect
the properties proved here. -/
inductive Cell where
  | nan : Cell
  | numc : Int → Str → Cell
  | strc : Str → Cell
deriving DecidableEq, Repr

/-- Default strings read as missing values by the tabular parser
(representative subset of pandas `read_csv` NA values). -/
def csvNaValues : List Str :=
  [strLit (""), strLit ("nan"), strLit ("NaN"), strLit ("NULL"),
   strLit ("null"), strLit ("N/A"), strLit ("NA"), strLit ("n/a"),
   strLit ("None")]

/-- Type a CSV field: NA strings become missing, full numeric literals
become numbers, anything else stays text. -/
def parseCell (f : Str) : Cell :=
  if memB f csvNaValues then Cell.nan
  else
    match parseNum f with
    | some (Jval.jnum n suf, []) => Cell.numc n suf
    | _ => Cell.strc f

/-- Model of `pandas.read_csv` as called by `_convert_csv` (line 329) with
`on_bad_lines="skip"`: first non-empty line is the header; rows with more
fields than the header are skipped, short rows are padded with missing
values. -/
def csvTable (text : Str) : Option (List Str × List (List Cell)) :=
  match (splitNl text).filter (fun l => !l.isEmpty) with
  | [] => none
  | hdr :: rows =>
    let header := splitComma hdr
    let w := header.length
    let rs := rows.filterMap (fun l =>
      let fs := (splitComma l).map parseCell
      if fs.length > w then none
      else some (fs ++ List.replicate (w - fs.length) Cell.nan))
    some (header, rs)

/-- String coercion of a cell, as `astype(str)` produces it: a missing
value stringifies to the text `nan`. -/
def cellStr : Cell → Str
  | Cell.nan => strLit ("nan")
  | Cell.numc n suf => intRepr n ++ suf
  | Cell.strc s => s

/-- JSON value of a cell under the `None if isna(val) else val`
comprehension of `_convert_csv` (line 339). -/
def cellJval : Cell → Jval
  | Cell.nan => Jval.jnull
  | Cell.numc n suf => Jval.jnum n suf
  | Cell.strc s => Jval.jstr s

/-- Emitted value of one cell: date-named columns were previously coerced
to strings by `astype(str)` (lines 332-334), so their values are strings
and never caught by the `isna` test; other columns map missing cells to
null. -/
def emitCell (dateCols : List Str) (col : Str) (c : Cell) : Jval :=
  if memB col dateCols then Jval.jstr (cellStr c) else cellJval c

/-- One output record of the CSV converter: the header keys in order, each
paired with its emitted value. -/
def rowToRecord (header dateCols : List Str) (row : List Cell) :
    List (Str × Jval) :=
  (header.zip row).map (fun p => (p.1, emitCell dateCols p.1 p.2))

/-- The default `date_columns` of `convert_to_jsonl` (line 260). -/
def defaultDateColumns : List Str :=
  [strLit ("date"), strLit ("report_date"), strLit ("start_ds"),
   strLit ("end_ds"), strLit ("exc_ds"), strLit ("day")]

/-- All records produced from a CSV text. -/
def csvRecords (text : Str) (dateCols : List Str) : List (List (Str × Jval)) :=
  match csvTable text with
  | none => []
  | some (h, rows) => rows.map (rowToRecord h dateCols)

/-- Model of `_convert_csv` (lines 326-342); `none` models the exception
pandas raises on input with no data. -/
def convertCsv (text : Str) (dateCols : List Str) : Option ConvertResult :=
  match csvTable text with
  | none => none
  | some (h, rows) =>
    let recs := rows.map (rowToRecord h dateCols)
    some ⟨joinNl (recs.map (fun r => dumpsF (text.length + 1) (Jval.jobj r))),
          recs.length, DataFormat.CSV, []⟩

/-- Model of `convert_to_jsonl` (lines 234-279): blank input is EMPTY; the
format argument overrides detection; unhandled formats return the text
unchanged with zero rows and a warning. -/
def convertToJsonl (text : Str) (fmtArg : Option DataFormat) :
    Option ConvertResult :=
  if (pyStrip text).isEmpty then some ⟨[], 0, DataFormat.EMPTY, []⟩
  else
    match fmtArg.getD (detectFormat text) with
    | DataFormat.JSONL => some (convertJsonl text)
    | DataFormat.JSON_ARRAY => convertJsonArray text
    | DataFormat.API_RESPONSE => convertApiResponse text
    | DataFormat.JSON_OBJECT => convertJsonObject text
    | DataFormat.CSV => convertCsv text defaultDateColumns
    | _ => some ⟨text, 0, DataFormat.UNKNOWN, [Warn.unknownFormat]⟩

/-- The preview byte budget: `5 * 1024 * 1024` (helper.py line 44). -/
def maxPreviewSize : Nat := 5 * 1024 * 1024

/-- The line loop of `_save_preview_by_lines` (helper.py lines 48-57): take
lines while the running size, counting each line plus its newline in
UTF-8 bytes, stays within the budget; stop at the first line that would
overflow. -/
def previewTakeLines (maxSize : Nat) : List Str → Nat → List Str
  | [], _ => []
  | l :: ls, size =>
    let lb := utf8Len l + 1
    if size + lb > maxSize then []
    else l :: previewTakeLines maxSize ls (size + lb)

/-- Content written by `_save_preview_by_lines` (helper.py lines 44-62):
the newline-join of the taken lines. -/
def savePreviewByLines (content : Str) (maxSize : Nat) : Str :=
  joinNl (previewTakeLines maxSize (splitNl content) 0)

/-- The preview collection of `_save_report_streaming` (helper.py lines
388-393): every line that still fits is appended, with no stop at the
first overflowing line. -/
def streamPreviewTake (maxSize : Nat) : List Str → Nat → List Str
  | [], _ => []
  | l :: ls, size =>
    let lb := utf8Len l + 1
    if size < maxSize && size + lb ≤ maxSize then
      l :: streamPreviewTake maxSize ls (size + lb)
    else streamPreviewTake maxSize ls size

/-- Split a list into successive batches: the batching loop of
`StreamingParser` yields as soon as a batch reaches `chunkSize` records
(`data_parser.py` lines 446-454), so batches have `max chunkSize 1`
records, except a shorter final one.  Total by fuel on the length. -/
def chunksOfAux (m : Nat) : Nat → List α → List (List α)
  | 0, _ => []
  | _, [] => []
  | fuel + 1, l => l.take m :: chunksOfAux m fuel (l.drop m)

/-- Batches of `max chunkSize 1` elements. -/
def chunksOf (chunkSize : Nat) (l : List α) : List (List α) :=
  chunksOfAux (max chunkSize 1) (l.length + 1) l

/-- Environment-mode strings. -/
def devS : Str := strLit ("dev")

/-- The staging mode string. -/
def stagingS : Str := strLit ("staging")

/-- The prod mode string. -/
def prodS : Str := strLit ("prod")

/-- `DEFAULT_ENV_MODE` of `config_manager.py` (line 14). -/
def DEFAULT_ENV_MODE : Str := stagingS

/-- ASCII lower-casing of one character, as Python `str.lower()` acts on
the ASCII range. -/
def pyLowerCh (c : Char) : Char :=
  if 'A' ≤ c && c ≤ 'Z' then Char.ofNat (c.toNat + 32) else c

/-- Model of `get_env_mode` (config_manager.py lines 65-78) as a function
of the `ENV_MODE` environment variable (`none` = unset).  `init_env_mode`
replaces an unset or empty variable by the default; the value is then
lower-cased and anything outside prod/staging falls back to the
default. -/
def getEnvMode (envVar : Option Str) : Str :=
  let v : Str :=
    match envVar with
    | none => DEFAULT_ENV_MODE
    | some s => if s.isEmpty then DEFAULT_ENV_MODE else s
  let em := v.map pyLowerCh
  if em == prodS || em == stagingS then em else DEFAULT_ENV_MODE

/-- Python truthiness of an optional string argument (`if start_ds and
end_ds`, `if custom`). -/
def optTruthy : Option Str → Bool
  | none => false
  | some s => !s.isEmpty

/-- Python f-string rendering of an optional string (`None` prints as the
four letters `None`). -/
def optFmt : Option Str → Str
  | none => strLit ("None")
  | some s => s

/-- The artifact descriptor received by `save_report`: provider, category,
execution date, optional range, optional report date, optional partition
key. -/
structure Descriptor where
  adNetwork : Str
  adType : Str
  excDs : Option Str
  startDs : Option Str
  endDs : Option Str
  reportDs : Option Str
  custom : Option Str

/-- The filename generation of `save_report` (helper.py lines 173-189):
date part from the range, else the report date, else the execution date;
then `network_datepart` with the partition key appended when present. -/
def saveReportFilename (d : Descriptor) : Str :=
  let datePart :=
    if optTruthy d.startDs && optTruthy d.endDs then
      optFmt d.startDs ++ strLit ("_to_") ++ optFmt d.endDs
    else if optTruthy d.reportDs then optFmt d.reportDs
    else optFmt d.excDs
  let base := d.adNetwork ++ '_' :: datePart
  if optTruthy d.custom then base ++ '_' :: optFmt d.custom else base

/-- The non-streaming pipeline of `save_report` as far as the claims
observe it: the artifact name and the normalized output bytes. -/
def savePipeline (d : Descriptor) (text : Str) : Str × Option ConvertResult :=
  (saveReportFilename d, convertToJsonl text none)

/-- The three delivery branches of `save_report` (helper.py lines 256,
271, 291). -/
inductive SaveBranch where
  | devLocal
  | stagingPreviewAndUpload
  | prodUpload
deriving DecidableEq, Repr

/-- Branch selection of `save_report`: `dev`, then `staging`, else
prod. -/
def saveReportBranch (mode : Str) : SaveBranch :=
  if mode == devS then SaveBranch.devLocal
  else if mode == stagingS then SaveBranch.stagingPreviewAndUpload
  else SaveBranch.prodUpload

/-- Failure points of a streaming invocation of `_save_report_streaming`:
while downloading the response (line 356), while processing batch `k` of
the parse loop (lines 377-404), during the preview-file write after `j`
characters have reached the disk (lines 409-412; the plain `open`/`write`
runs only when a preview path was set, i.e. in staging mode), during the
final upload call (line 421), or no failure.  Each failure point is an
injected fault on one operation: when the run never executes that
operation, the fault does not fire and the run completes. -/
inductive StreamFail where
  | atDownload : StreamFail
  | atChunk : Nat → StreamFail
  | atPreviewWrite : Nat → StreamFail
  | atUpload : StreamFail
  | noFail : StreamFail

/-- The artifacts of one streaming invocation that are visible to
downstream readers when control returns: content of the local full file
(dev), of the local preview file (staging), and of the remote object
(staging/prod); plus whether the invocation raised. -/
structure StreamOutcome where
  localFull : Option Str
  preview : Option Str
  remote : Option Str
  errored : Bool
deriving DecidableEq, Repr

/-- One chunk of the local/remote stream: the records of the batch, one
JSON line each, with a trailing newline (helper.py line 395). -/
def chunkJsonl (fuel : Nat) (batch : List Jval) : Str :=
  joinNl (batch.map (dumpsF fuel)) ++ ['\n']

/-- The full streamed content after the first `k` batches. -/
def streamedContent (fuel : Nat) (batches : List (List Jval)) (k : Nat) : Str :=
  ((batches.take k).map (chunkJsonl fuel)).flatten

/-- The preview lines collected over the whole stream: the collection
condition runs per record across batch boundaries with one running size
(helper.py lines 388-393). -/
def streamPreviewContent (fuel : Nat) (batches : List (List Jval)) : Str :=
  joinNl (streamPreviewTake maxPreviewSize
    ((batches.map (fun b => b.map (dumpsF fuel))).flatten) 0)

/-- Model of `_save_report_streaming` (helper.py lines 298-449) at the
level the claim observes: which artifacts are visible when control returns
to the caller, for a given environment mode, record batches, and failure
point.  The local full file exists (partially written) from the moment it
is opened in dev mode; the preview file is written only after the parse
loop completes, by a plain `open`/`write` with no cleanup on error, so a
fault after `j` characters leaves the `j`-character prefix of the preview
content on disk (character granularity stands for the written byte
prefix); in modes without a preview path the write never runs and the
fault is vacuous; the remote object is created by the single
`upload_fileobj` call after the compressed stream is finalized, and the
remote content stands for the bytes whose gzip is uploaded. -/
def saveReportStreamingRun (fuel : Nat) (envMode : Str)
    (batches : List (List Jval)) (fp : StreamFail) : StreamOutcome :=
  let isDev := envMode == devS
  let isStaging := envMode == stagingS
  let isProd := envMode == prodS
  match fp with
  | StreamFail.atDownload => ⟨none, none, none, true⟩
  | StreamFail.atChunk k =>
    ⟨if isDev then some (streamedContent fuel batches k) else none,
     none, none, true⟩
  | StreamFail.atPreviewWrite j =>
    if isStaging then
      ⟨none, some ((streamPreviewContent fuel batches).take j), none, true⟩
    else
      ⟨if isDev then some (streamedContent fuel batches batches.length) else none,
       none,
       if isProd then some (streamedContent fuel batches batches.length) else none,
       false⟩
  | StreamFail.atUpload =>
    ⟨if isDev then some (streamedContent fuel batches batches.length) else none,
     if isStaging then some (streamPreviewContent fuel batches) else none,
     none, true⟩
  | StreamFail.noFail =>
    ⟨if isDev then some (streamedContent fuel batches batches.length) else none,
     if isStaging then some (streamPreviewContent fuel batches) else none,
     if isStaging || isProd then
       some (streamedContent fuel batches batches.length)
     else none,
     false⟩

/-- A record batch of `StreamingParser.parse_file` together with the
model's measure of simultaneously materialized data. -/
structure ParseRun where
  batches : List (List Jval)
  materializedRows : Nat

/-- Rows of the CSV path of the streaming parser. -/
def csvRowsOf (text : Str) : List (List (Str × Jval)) :=
  csvRecords text defaultDateColumns

/-- Model of `StreamingParser.parse_file` (data_parser.py lines 377-398)
with the materialized-rows measure: the CSV path reads `chunksize` rows at
a time (line 405), so at most one batch of rows is live; every other
format goes through `_parse_json_all`, which executes
`content = file_obj.read()` and `lines = jsonl_content.split(chr(10))`
(lines 421 and 437), materializing every line of the converted output at
once before batching. -/
def parseFileRun (chunkSize : Nat) (fmt : DataFormat) (text : Str) : ParseRun :=
  if fmt = DataFormat.CSV then
    ⟨chunksOf chunkSize ((csvRowsOf text).map Jval.jobj),
     ((chunksOf chunkSize ((csvRowsOf text).map Jval.jobj)).map
        List.length).foldr max 0⟩
  else
    match convertToJsonl text
        (some (if fmt = DataFormat.UNKNOWN then detectFormat text else fmt)) with
    | none => ⟨[], (splitNl text).length⟩
    | some r =>
      if r.content.isEmpty then ⟨[], 0⟩
      else
        ⟨chunksOf chunkSize ((splitNl r.content).filterMap (fun l =>
            if (pyStrip l).isEmpty then none else jsonLoads (pyStrip l))),
         (splitNl r.content).length⟩

/-- The single-line envelope input of the detection table:
`\x7b"code":200,"results":[\x7b"x":1\x7d,\x7b"x":2\x7d]\x7d`. -/
def c1Input : Str :=
  strLit ("\x7b\"code\":200,\"results\":[\x7b\"x\":1\x7d,\x7b\"x\":2\x7d]\x7d")

/-- An input with no JSON or delimiter structure. -/
def helloInput : Str := strLit ("hello")

/-- A truncated envelope prefix whose only metadata-like token is
`success`. -/
def c7CxInput : Str := strLit ("\x7b\"success\":true,\"results\":[\x7b\"x\"")

/-- A truncated envelope prefix with a `code` token. -/
def c7WitInput : Str := strLit ("\x7b\"code\":200,\"results\":[\x7b\"x\"")

/-- The two-line JSONL input of the detection table. -/
def c2WitInput : Str := strLit ("\x7b\"x\":1\x7d\n\x7b\"x\":2\x7d")

/-- A CSV input whose date column has a missing cell. -/
def c5CxInput : Str := strLit ("date,x\n,1")

/-- A single line as long as the whole preview budget. -/
def bigLine : Str := List.replicate maxPreviewSize 'a'

/-- A one-record JSON line. -/
def recLine : Str := strLit ("\x7b\"x\":1\x7d")

/-- Total preview bytes attributed to a list of lines: each line counts
its UTF-8 length plus one newline byte, as in the running `preview_size`
of both preview collectors. -/
def sumLineBytes (ls : List Str) : Nat :=
  (ls.map (fun l => utf8Len l + 1)).sum

/-- A CSV input with a date value and a missing non-date cell. -/
def c5WitInput : Str := strLit ("date,x\n2024,")

/-- The single record produced from `c5WitInput`. -/
def c5WitRec : List (Str × Jval) :=
  [(strLit ("date"), Jval.jstr (strLit ("2024"))), (strLit ("x"), Jval.jnull)]

/-- A text cell produced by the tabular parser never carries an NA string:
`parseCell` only leaves text that matched no NA value. -/
def cellOkStr (c : Cell) : Prop :=
  ∀ s, c = Cell.strc s → memB s csvNaValues = false

/-- A JSONL text of `n + 1` identical one-record lines. -/
def repJoin (n : Nat) : Str :=
  joinNl (List.replicate (n + 1) recLine)

/-- Append a character to the last line of a nonempty line list (the shape
of `splitNl` after appending one non-newline character). -/
def appendLast : List Str → Char → List Str
  | [], c => [[c]]
  | [l], c => [l ++ [c]]
  | l :: ls, c => l :: appendLast ls c

-- ===========================================================================
-- Theorems
-- ===========================================================================

/-- The environment mode resolved by `get_env_mode` is always `staging` or
`prod`: anything else falls back to the default. -/
theorem getEnvMode_mem (v : Option Str) :
    getEnvMode v = stagingS ∨ getEnvMode v = prodS := by
  unfold getEnvMode
  by_cases h :
      ((((match v with
          | none => DEFAULT_ENV_MODE
          | some s => if s.isEmpty then DEFAULT_ENV_MODE else s).map pyLowerCh)
         == prodS)
        || (((match v with
          | none => DEFAULT_ENV_MODE
          | some s => if s.isEmpty then DEFAULT_ENV_MODE else s).map pyLowerCh)
         == stagingS)) = true
  · simp only [h, if_true]
    rcases Bool.or_eq_true .. |>.mp h with h1 | h1
    · exact Or.inr (eq_of_beq h1)
    · exact Or.inl (eq_of_beq h1)
  · simp only [h, if_false, Bool.false_eq_true]
    exact Or.inl rfl

/-- The resolved mode is never the `dev` string. -/
theorem getEnvMode_ne_dev (v : Option Str) : getEnvMode v ≠ devS := by
  rcases getEnvMode_mem v with h | h <;> rw [h] <;> decide

/-- C1: for the one-line input
`\x7b"code":200,"results":[\x7b"x":1\x7d,\x7b"x":2\x7d]\x7d` the spec's
detection table promises ENVELOPE via `results` with 2 records, and the
code's own docstrings name exactly this shape as the API-response format;
but `detect_format` returns at its first step (one line that parses, lines
85-107) without ever running the envelope test, classifying the input as
JSON_OBJECT, and conversion emits the whole envelope as a single record.
The envelope test itself (`_is_api_response`) would have accepted the
parsed object and extracted the 2 `results` records. -/
theorem c1_single_line_envelope_misclassified :
    detectFormat c1Input = DataFormat.JSON_OBJECT ∧
    convertToJsonl c1Input none = some
      ⟨strLit ("\x7b\"code\": 200, \"results\": [\x7b\"x\": 1\x7d, \x7b\"x\": 2\x7d]\x7d"),
       1, DataFormat.JSON_OBJECT, []⟩ ∧
    ∃ ms, jsonLoads c1Input = some (Jval.jobj ms) ∧
      isApiResponse ms = true ∧
      (extractDataFromApiResponse ms).1.length = 2 :=
  ⟨rfl, rfl,
   ⟨[(strLit ("code"), Jval.jnum 200 []),
     (strLit ("results"), Jval.jarr
       [Jval.jobj [(strLit ("x"), Jval.jnum 1 [])],
        Jval.jobj [(strLit ("x"), Jval.jnum 2 [])]])],
    rfl, rfl, rfl⟩⟩

/-- C6: whenever detection fails (UNKNOWN), the converter returns the
original text unchanged, with a record count of 0 and a warning, so no
data is silently dropped (`convert_to_jsonl` lines 277-279). -/
theorem c6_unknown_passthrough (text : Str)
    (h : detectFormat text = DataFormat.UNKNOWN) :
    convertToJsonl text none =
      some ⟨text, 0, DataFormat.UNKNOWN, [Warn.unknownFormat]⟩ := by
  have hb : (pyStrip text).isEmpty = false := by
    by_contra hcon
    have hbt : (pyStrip text).isEmpty = true := by
      cases hx : (pyStrip text).isEmpty
      · exact absurd hx hcon
      · rfl
    unfold detectFormat at h
    rw [hbt] at h
    simp at h
  unfold convertToJsonl
  rw [hb]
  simp only [Bool.false_eq_true, if_false, Option.getD_none, h]

/-- C6 witness: the unparseable input `hello` is UNKNOWN and is passed
through unchanged with a warning. -/
theorem c6_unknown_passthrough_witness :
    detectFormat helloInput = DataFormat.UNKNOWN ∧
    convertToJsonl helloInput none =
      some ⟨helloInput, 0, DataFormat.UNKNOWN, [Warn.unknownFormat]⟩ :=
  ⟨rfl, c6_unknown_passthrough helloInput rfl⟩

/-- C10: for every value of the `ENV_MODE` variable (unset, `dev`, or any
unrecognized string) `get_env_mode` returns only `staging` or `prod`,
defaulting to `staging` outside that set; hence the dev branch of
`save_report` is unreachable when the mode comes from `get_env_mode`. -/
theorem c10_env_mode_total (v : Option Str) :
    (getEnvMode v = stagingS ∨ getEnvMode v = prodS) ∧
    saveReportBranch (getEnvMode v) ≠ SaveBranch.devLocal ∧
    getEnvMode none = stagingS ∧
    (∀ s : Str, ¬(s.map pyLowerCh = prodS ∨ s.map pyLowerCh = stagingS) →
      getEnvMode (some s) = stagingS) := by
  refine ⟨getEnvMode_mem v, ?_, rfl, ?_⟩
  · rcases getEnvMode_mem v with h | h <;> rw [h] <;> decide
  · intro s hs
    unfold getEnvMode
    by_cases he : s.isEmpty
    · simp only [he, if_true]
      rfl
    · have he' : s.isEmpty = false := by
        cases hx : s.isEmpty
        · rfl
        · exact absurd hx he
      simp only [he', Bool.false_eq_true, if_false]
      have h1 : (s.map pyLowerCh == prodS) = false := by
        cases hx : s.map pyLowerCh == prodS
        · rfl
        · exact absurd (Or.inl (eq_of_beq hx)) hs
      have h2 : (s.map pyLowerCh == stagingS) = false := by
        cases hx : s.map pyLowerCh == stagingS
        · rfl
        · exact absurd (Or.inr (eq_of_beq hx)) hs
      rw [h1, h2]
      rfl

/-- C10 witness: `dev` is outside the recognized set and resolves to
`staging`, and the branch taken is not the dev branch. -/
theorem c10_env_mode_total_witness :
    getEnvMode (some devS) = stagingS ∧
    saveReportBranch (getEnvMode (some devS)) ≠ SaveBranch.devLocal :=
  ⟨(c10_env_mode_total (some devS)).2.2.2 devS (by decide),
   (c10_env_mode_total (some devS)).2.1⟩

/-- C8: the pipeline is a pure function of the descriptor and the input
text, so a rerun on identical input and descriptor returns the identical
(name, normalized output) pair; and the artifact name is a function of
the descriptor alone — it does not depend on the input text at all
(`save_report` lines 173-189 compute it before touching the data). -/
theorem c8_idempotent_naming (d : Descriptor) (t t2 : Str) :
    savePipeline d t = savePipeline d t ∧
    (savePipeline d t).1 = (savePipeline d t2).1 ∧
    (savePipeline d t).1 = saveReportFilename d :=
  ⟨rfl, rfl, rfl⟩

/-- C4: in every environment mode reachable through `get_env_mode` (staging
or prod, by `getEnvMode_mem`), an error raised during the download or while
processing any batch `k` of the parse loop leaves no artifact visible — no
local full file, no preview file, no remote object — and the error
propagates; a failure of the final upload call never publishes the remote
object and leaves no local full file.  But a failure during the
preview-file write (helper.py lines 409-412), reachable in staging mode,
leaves a partially-written preview file visible — the `j`-character prefix
of the intended preview content — while the error propagates, because the
plain `open`/`write` has no cleanup; the remote object is still never
published then.  In modes without a preview path the write never runs, so
that fault is vacuous and the run completes as with no failure. -/
theorem c4_no_partial_artifacts (v : Option Str) (fuel : Nat)
    (batches : List (List Jval)) (k : Nat) (_hk : k < batches.length) :
    saveReportStreamingRun fuel (getEnvMode v) batches (StreamFail.atChunk k) =
      ⟨none, none, none, true⟩ ∧
    saveReportStreamingRun fuel (getEnvMode v) batches StreamFail.atDownload =
      ⟨none, none, none, true⟩ ∧
    (saveReportStreamingRun fuel (getEnvMode v) batches StreamFail.atUpload).remote
      = none ∧
    (saveReportStreamingRun fuel (getEnvMode v) batches StreamFail.atUpload).localFull
      = none ∧
    (∀ j, (getEnvMode v == stagingS) = true →
      saveReportStreamingRun fuel (getEnvMode v) batches
          (StreamFail.atPreviewWrite j)
        = ⟨none, some ((streamPreviewContent fuel batches).take j), none, true⟩) ∧
    (∀ j, (getEnvMode v == stagingS) = false →
      saveReportStreamingRun fuel (getEnvMode v) batches
          (StreamFail.atPreviewWrite j)
        = saveReportStreamingRun fuel (getEnvMode v) batches StreamFail.noFail) := by
  have hdev : (getEnvMode v == devS) = false := by
    cases hx : getEnvMode v == devS
    · rfl
    · exact absurd (eq_of_beq hx) (getEnvMode_ne_dev v)
  refine ⟨?_, rfl, rfl, ?_, ?_, ?_⟩
  · unfold saveReportStreamingRun
    rw [hdev]
    rfl
  · unfold saveReportStreamingRun
    rw [hdev]
    rfl
  · intro j hst
    unfold saveReportStreamingRun
    rw [hst]
    rfl
  · intro j hst
    unfold saveReportStreamingRun
    rw [hst]
    rfl

/-- C4 witness: a concrete staging-mode run failing at the first batch
leaves nothing visible, while the same run failing two characters into the
preview write leaves the two-character partial preview visible with no
remote object. -/
theorem c4_no_partial_artifacts_witness :
    saveReportStreamingRun 8 (getEnvMode (some stagingS))
      [[Jval.jnull]] (StreamFail.atChunk 0) = ⟨none, none, none, true⟩ ∧
    saveReportStreamingRun 8 (getEnvMode (some stagingS))
      [[Jval.jnull]] (StreamFail.atPreviewWrite 2)
      = ⟨none, some ((streamPreviewContent 8 [[Jval.jnull]]).take 2), none, true⟩ :=
  ⟨(c4_no_partial_artifacts (some stagingS) 8 [[Jval.jnull]] 0 (by decide)).1,
   (c4_no_partial_artifacts (some stagingS) 8 [[Jval.jnull]] 0
     (by decide)).2.2.2.2.1 2 (by decide)⟩

/-- C4 counterexample: a staging-mode run whose preview-file write fails
mid-write raises, yet a partially-written preview artifact stays visible:
the file holds the strict two-character prefix of the intended preview
content and nothing discards it, so the invocation does leave a
half-written artifact to downstream readers. -/
theorem c4_preview_partial_write :
    (saveReportStreamingRun 8 (getEnvMode (some stagingS)) [[Jval.jnull]]
        (StreamFail.atPreviewWrite 2)).errored = true ∧
    (saveReportStreamingRun 8 (getEnvMode (some stagingS)) [[Jval.jnull]]
        (StreamFail.atPreviewWrite 2)).preview = some (strLit ("nu")) ∧
    strLit ("nu") ≠ streamPreviewContent 8 [[Jval.jnull]] ∧
    strLit ("nu") ++ strLit ("ll") = streamPreviewContent 8 [[Jval.jnull]] :=
  ⟨by decide, by decide, by decide, by decide⟩

/-- UTF-8 length distributes over append. -/
theorem utf8Len_append (a b : Str) : utf8Len (a ++ b) = utf8Len a + utf8Len b := by
  simp [utf8Len]

/-- UTF-8 length of a constant string. -/
theorem utf8Len_replicate (n : Nat) (c : Char) :
    utf8Len (List.replicate n c) = n * charBytes c := by
  induction n with
  | zero => simp [utf8Len]
  | succ m ih =>
    have h : utf8Len (List.replicate (m + 1) c)
        = charBytes c + utf8Len (List.replicate m c) := by
      simp [List.replicate_succ, utf8Len]
    rw [h, ih, Nat.succ_mul]
    omega

/-- The newline-join of a nonempty line list is one byte shorter than its
attributed size. -/
theorem joinNl_utf8 : ∀ ls : List Str, ls ≠ [] →
    utf8Len (joinNl ls) + 1 = sumLineBytes ls
  | [], h => absurd rfl h
  | [l], _ => by simp [joinNl, sumLineBytes]
  | l :: l2 :: rest, _ => by
    have ih := joinNl_utf8 (l2 :: rest) (by simp)
    simp only [joinNl, sumLineBytes, List.map_cons, List.sum_cons] at *
    rw [utf8Len_append]
    simp only [utf8Len, List.map_cons, List.sum_cons] at *
    have hnl : charBytes '\n' = 1 := by decide
    omega

/-- The non-streaming preview loop takes an initial segment of the
lines. -/
theorem previewTake_pre (M : Nat) : ∀ (ls : List Str) (size : Nat),
    previewTakeLines M ls size <+: ls
  | [], _ => by simp [previewTakeLines]
  | l :: ls, size => by
    unfold previewTakeLines
    by_cases h : size + (utf8Len l + 1) > M
    · simp only [h, if_true]
      exact List.nil_prefix
    · simp only [h, if_false]
      obtain ⟨t, ht⟩ := previewTake_pre M ls (size + (utf8Len l + 1))
      exact ⟨t, by rw [List.cons_append, ht]⟩

/-- Size invariant of the non-streaming preview loop: starting from a
running size within the budget, the attributed bytes of the taken lines
never exceed it. -/
theorem previewTake_size (M : Nat) : ∀ (ls : List Str) (size : Nat),
    size ≤ M → size + sumLineBytes (previewTakeLines M ls size) ≤ M
  | [], size, h => by simpa [previewTakeLines, sumLineBytes] using h
  | l :: ls, size, h => by
    unfold previewTakeLines
    by_cases hc : size + (utf8Len l + 1) > M
    · simpa [hc, sumLineBytes] using h
    · have hle : size + (utf8Len l + 1) ≤ M := Nat.le_of_not_lt hc
      have ih := previewTake_size M ls (size + (utf8Len l + 1)) hle
      simp only [hc, if_false, sumLineBytes, List.map_cons, List.sum_cons] at *
      omega

/-- The streaming preview collector keeps a sublist of the lines (whole
lines only, in order). -/
theorem streamPreview_sub (M : Nat) : ∀ (ls : List Str) (size : Nat),
    List.Sublist (streamPreviewTake M ls size) ls
  | [], _ => by simp [streamPreviewTake]
  | l :: ls, size => by
    unfold streamPreviewTake
    by_cases h : size < M && size + (utf8Len l + 1) ≤ M
    · simp only [h, if_true]
      exact List.Sublist.cons₂ l (streamPreview_sub M ls (size + (utf8Len l + 1)))
    · simp only [h, if_false]
      exact List.Sublist.cons l (streamPreview_sub M ls size)

/-- Size invariant of the streaming preview collector. -/
theorem streamPreview_size (M : Nat) : ∀ (ls : List Str) (size : Nat),
    size ≤ M → size + sumLineBytes (streamPreviewTake M ls size) ≤ M
  | [], size, h => by simpa [streamPreviewTake, sumLineBytes] using h
  | l :: ls, size, h => by
    unfold streamPreviewTake
    by_cases hc : size < M && size + (utf8Len l + 1) ≤ M
    · have hle : size + (utf8Len l + 1) ≤ M := by
        have := hc
        simp only [Bool.and_eq_true, decide_eq_true_eq] at this
        exact this.2
      have ih := streamPreview_size M ls (size + (utf8Len l + 1)) hle
      simp only [hc, if_true, sumLineBytes, List.map_cons, List.sum_cons] at *
      omega
    · have ih := streamPreview_size M ls size h
      simp only [hc, if_false] at *
      exact ih

/-- Joined taken lines stay within the byte budget. -/
theorem joined_taken_le (M : Nat) (taken : List Str)
    (h : sumLineBytes taken ≤ M) : utf8Len (joinNl taken) ≤ M := by
  cases taken with
  | nil => simp [joinNl, utf8Len]
  | cons l ls =>
    have := joinNl_utf8 (l :: ls) (by simp)
    omega

/-- C3 (amended): both preview collectors write only whole output lines
within the 5 MiB budget, so no JSON value is ever split at the size
boundary and the artifact's last byte ends a complete line.  The
non-streaming writer `_save_preview_by_lines` keeps an initial segment of
the lines; the streaming collector of `_save_report_streaming` keeps a
sublist — not necessarily an initial segment, because it does not stop at
the first line that does not fit (see the counterexample). -/
theorem c3_preview_line_bounded (content : Str) (ls : List Str) :
    previewTakeLines maxPreviewSize (splitNl content) 0 <+: splitNl content ∧
    utf8Len (savePreviewByLines content maxPreviewSize) ≤ maxPreviewSize ∧
    List.Sublist (streamPreviewTake maxPreviewSize ls 0) ls ∧
    utf8Len (joinNl (streamPreviewTake maxPreviewSize ls 0)) ≤ maxPreviewSize := by
  refine ⟨previewTake_pre _ _ _, ?_, streamPreview_sub _ _ _, ?_⟩
  · exact joined_taken_le _ _
      (by simpa using previewTake_size maxPreviewSize (splitNl content) 0 (Nat.zero_le _))
  · exact joined_taken_le _ _
      (by simpa using streamPreview_size maxPreviewSize ls 0 (Nat.zero_le _))

/-- C3 counterexample: for the normalized line sequence consisting of one
5 MiB line followed by the line `b`, the streaming preview collector skips
the oversized line but still appends the later small one, so the preview
is not a prefix of the output's lines, contradicting the claim. -/
theorem c3_stream_preview_not_initial :
    streamPreviewTake maxPreviewSize [bigLine, strLit ("b")] 0 = [strLit ("b")] ∧
    ¬ (streamPreviewTake maxPreviewSize [bigLine, strLit ("b")] 0
        <+: [bigLine, strLit ("b")]) := by
  have hbig : utf8Len bigLine = maxPreviewSize := by
    have h1 : charBytes 'a' = 1 := by decide
    simp [bigLine, utf8Len_replicate, h1]
  have hstep : streamPreviewTake maxPreviewSize [bigLine, strLit ("b")] 0
      = if 0 < maxPreviewSize && 0 + (utf8Len bigLine + 1) ≤ maxPreviewSize then
          bigLine :: streamPreviewTake maxPreviewSize [strLit ("b")]
            (0 + (utf8Len bigLine + 1))
        else streamPreviewTake maxPreviewSize [strLit ("b")] 0 := rfl
  have hcond : (0 < maxPreviewSize
      && 0 + (utf8Len bigLine + 1) ≤ maxPreviewSize) = false := by
    rw [hbig]
    decide
  have heq : streamPreviewTake maxPreviewSize [bigLine, strLit ("b")] 0
      = [strLit ("b")] := by
    rw [hstep, hcond]
    decide
  refine ⟨heq, ?_⟩
  rw [heq]
  rintro ⟨t, ht⟩
  rw [List.cons_append, List.nil_append, List.cons.injEq] at ht
  have hlen := congrArg List.length ht.1
  have e2 : bigLine.length = maxPreviewSize := by simp [bigLine]
  rw [e2] at hlen
  have e1 : (strLit ("b")).length = 1 := rfl
  rw [e1] at hlen
  exact absurd hlen (by decide)

/-- Text cells keep no NA string. -/
theorem parseCell_strc (f s : Str) (h : parseCell f = Cell.strc s) :
    memB s csvNaValues = false := by
  unfold parseCell at h
  by_cases hna : memB f csvNaValues = true
  · rw [if_pos hna] at h
    exact absurd h (by intro hx; cases hx)
  · have hna' : memB f csvNaValues = false := by
      cases hx : memB f csvNaValues
      · rfl
      · exact absurd hx hna
    rw [hna'] at h
    simp only [Bool.false_eq_true, if_false] at h
    split at h
    · exact absurd h (by intro hx; cases hx)
    · cases h
      exact hna'

/-- Every row of a parsed table has the header's width, and its text cells
carry no NA string. -/
theorem csvTable_rows (text : Str) (h : List Str) (rows : List (List Cell))
    (htab : csvTable text = some (h, rows)) :
    ∀ row ∈ rows, row.length = h.length ∧ ∀ cell ∈ row, cellOkStr cell := by
  unfold csvTable at htab
  rcases hsp : (splitNl text).filter (fun l => !l.isEmpty) with _ | ⟨hdr, rs⟩
  · rw [hsp] at htab
    cases htab
  · rw [hsp] at htab
    simp only [Option.some.injEq, Prod.mk.injEq] at htab
    obtain ⟨hh, hrows⟩ := htab
    intro row hrow
    rw [← hrows] at hrow
    rw [List.mem_filterMap] at hrow
    obtain ⟨l, _, hl⟩ := hrow
    by_cases hlen : ((splitComma l).map parseCell).length > (splitComma hdr).length
    · rw [if_pos hlen] at hl
      cases hl
    · rw [if_neg hlen] at hl
      rw [Option.some.injEq] at hl
      constructor
      · rw [← hl, List.length_append, List.length_replicate, ← hh]
        omega
      · intro cell hcell
        rw [← hl, List.mem_append] at hcell
        rcases hcell with hc | hc
        · rw [List.mem_map] at hc
          obtain ⟨f, _, hf⟩ := hc
          intro s hs
          exact parseCell_strc f s (hs ▸ hf)
        · have := List.eq_of_mem_replicate hc
          intro s hs
          rw [this] at hs
          cases hs

/-- Flattening the batches gives back the rows, whatever batch size. -/
theorem chunksOfAux_flatten (m : Nat) (hm : 1 ≤ m) :
    ∀ (fuel : Nat) (l : List α), l.length < fuel →
      (chunksOfAux m fuel l).flatten = l := by
  intro fuel
  induction fuel with
  | zero => intro l hl; omega
  | succ f ih =>
    intro l hl
    cases l with
    | nil => rfl
    | cons x xs =>
      show ((x :: xs).take m :: chunksOfAux m f ((x :: xs).drop m)).flatten = x :: xs
      rw [List.flatten_cons, ih ((x :: xs).drop m) (by
        rw [List.length_drop]
        simp only [List.length_cons] at hl ⊢
        omega)]
      exact List.take_append_drop m (x :: xs)

/-- Flattened batches reproduce the list. -/
theorem chunksOf_flatten (n : Nat) (l : List α) :
    (chunksOf n l).flatten = l :=
  chunksOfAux_flatten (max n 1) (Nat.le_max_right n 1) (l.length + 1) l
    (Nat.lt_succ_self _)

/-- C5 (amended): in every record emitted from tabular input, each
date-named column's value is a string; a missing cell of a non-date column
becomes an explicit JSON null; no record omits a header key; and no
non-date value is ever the string `nan`.  However a missing cell in a
date-named column is first coerced by `astype(str)` and is emitted as the
string `nan`, not as null (see the counterexample); the streaming CSV path
emits the same records batch by batch. -/
theorem c5_csv_date_strings_nulls (text : Str) (rec : List (Str × Jval))
    (hrec : rec ∈ csvRecords text defaultDateColumns) :
    (∀ kv ∈ rec, memB kv.1 defaultDateColumns = true → ∃ s, kv.2 = Jval.jstr s) ∧
    (∀ kv ∈ rec, memB kv.1 defaultDateColumns = false →
      kv.2 ≠ Jval.jstr (strLit ("nan"))) ∧
    (∀ (h : List Str) (rows : List (List Cell)), csvTable text = some (h, rows) →
      rec.map Prod.fst = h) ∧
    (∀ (h dateCols : List Str) (row : List Cell) (col : Str),
      memB col dateCols = false → (col, Cell.nan) ∈ h.zip row →
      (col, Jval.jnull) ∈ rowToRecord h dateCols row) ∧
    (∀ (n : Nat) (t2 : Str),
      (chunksOf n (csvRecords t2 defaultDateColumns)).flatten =
        csvRecords t2 defaultDateColumns) := by
  unfold csvRecords at hrec
  rcases htab : csvTable text with _ | ⟨h0, rows0⟩
  · rw [htab] at hrec
    cases hrec
  · rw [htab] at hrec
    rw [List.mem_map] at hrec
    obtain ⟨row, hrowmem, hrow⟩ := hrec
    obtain ⟨hwidth, hcells⟩ := csvTable_rows text h0 rows0 htab row hrowmem
    refine ⟨?_, ?_, ?_, ?_, ?_⟩
    · intro kv hkv hdate
      rw [← hrow] at hkv
      unfold rowToRecord at hkv
      rw [List.mem_map] at hkv
      obtain ⟨p, _, hp⟩ := hkv
      have h1 : kv.1 = p.1 := by rw [← hp]
      have h2 : kv.2 = emitCell defaultDateColumns p.1 p.2 := by rw [← hp]
      rw [h2]
      unfold emitCell
      rw [h1] at hdate
      rw [hdate, if_pos rfl]
      exact ⟨cellStr p.2, rfl⟩
    · intro kv hkv hdate
      rw [← hrow] at hkv
      unfold rowToRecord at hkv
      rw [List.mem_map] at hkv
      obtain ⟨p, hpmem, hp⟩ := hkv
      have h1 : kv.1 = p.1 := by rw [← hp]
      have h2 : kv.2 = emitCell defaultDateColumns p.1 p.2 := by rw [← hp]
      rw [h2]
      unfold emitCell
      rw [h1] at hdate
      rw [hdate]
      simp only [Bool.false_eq_true, if_false]
      have hok : cellOkStr p.2 := by
        refine hcells p.2 ?_
        exact (List.of_mem_zip hpmem).2
      cases hc : p.2 with
      | nan => intro hx; cases hx
      | numc n suf => intro hx; cases hx
      | strc s =>
        intro hx
        rw [show cellJval (Cell.strc s) = Jval.jstr s from rfl] at hx
        have hs : s = strLit ("nan") := by
          have := hx
          injection this
        have := hok s hc
        rw [hs] at this
        exact absurd this (by decide)
    · intro h rows htab2
      have heq : (some (h0, rows0) : Option (List Str × List (List Cell)))
          = some (h, rows) := htab2
      rw [Option.some.injEq, Prod.mk.injEq] at heq
      obtain ⟨hh, _⟩ := heq
      rw [← hrow, ← hh]
      unfold rowToRecord
      rw [List.map_map]
      have : (Prod.fst ∘ fun p : Str × Cell => (p.1, emitCell defaultDateColumns p.1 p.2))
          = Prod.fst := rfl
      rw [this]
      exact List.map_fst_zip h0 row (by omega)
    · intro h dateCols row col hnd hmem
      unfold rowToRecord
      rw [List.mem_map]
      refine ⟨(col, Cell.nan), hmem, ?_⟩
      unfold emitCell
      simp only [hnd, Bool.false_eq_true, if_false]
      rfl
    · intro n t2
      exact chunksOf_flatten n (csvRecords t2 defaultDateColumns)

/-- C5 witness: for the input `date,x` with row `2024,` the record keeps
both header keys, the date value is the string 2024, and the missing
non-date cell is null. -/
theorem c5_csv_date_strings_nulls_witness :
    c5WitRec.map Prod.fst = [strLit ("date"), strLit ("x")] :=
  (c5_csv_date_strings_nulls c5WitInput c5WitRec
      (by rw [show csvRecords c5WitInput defaultDateColumns = [c5WitRec] from rfl]
          exact List.mem_singleton.mpr rfl)).2.2.1
    [strLit ("date"), strLit ("x")]
    [[Cell.numc 2024 [], Cell.nan]] rfl

/-- C5 counterexample: for the tabular input `date,x` with the row `,1`,
the missing cell of the date column is emitted as the string `nan`, not as
an explicit null, contradicting the claim that every missing cell becomes
null and is never the string `nan`. -/
theorem c5_date_nan_not_null :
    detectFormat c5CxInput = DataFormat.CSV ∧
    csvRecords c5CxInput defaultDateColumns =
      [[(strLit ("date"), Jval.jstr (strLit ("nan"))),
        (strLit ("x"), Jval.jnum 1 [])]] ∧
    Jval.jstr (strLit ("nan")) ≠ Jval.jnull :=
  ⟨rfl, rfl, by intro h; cases h⟩

/-- The head surviving `dropWhile` fails the predicate. -/
theorem dropWhile_head_false (p : Char → Bool) :
    ∀ (s : Str) (c : Char), (List.dropWhile p s).head? = some c → p c = false
  | [], c, h => by cases h
  | x :: xs, c, h => by
    by_cases hp : p x = true
    · rw [List.dropWhile_cons, if_pos hp] at h
      exact dropWhile_head_false p xs c h
    · have hp' : p x = false := by
        cases hx : p x
        · rfl
        · exact absurd hx hp
      rw [List.dropWhile_cons, if_neg (by rw [hp']; simp)] at h
      rw [List.head?_cons, Option.some.injEq] at h
      rw [← h]
      exact hp'

/-- The first character of a stripped string is not whitespace. -/
theorem pyStrip_head_false (s : Str) (c : Char)
    (h : (pyStrip s).head? = some c) : isPyWs c = false := by
  obtain ⟨t, ht⟩ := List.rdropWhile_prefix isPyWs (List.dropWhile isPyWs s)
  apply dropWhile_head_false isPyWs s c
  rw [show List.dropWhile isPyWs s = pyStrip s ++ t from ht.symm]
  cases hp : pyStrip s with
  | nil => rw [hp] at h; cases h
  | cons x xs =>
    rw [hp] at h
    rw [List.cons_append, List.head?_cons]
    rw [List.head?_cons] at h
    exact h

/-- The last character of a stripped string is not whitespace. -/
theorem pyStrip_last_false (s : Str) (c : Char)
    (h : (pyStrip s).getLast? = some c) : isPyWs c = false := by
  apply dropWhile_head_false isPyWs (List.dropWhile isPyWs s).reverse c
  have h2 : (pyStrip s).reverse.head? = some c := by
    rw [List.head?_reverse]
    exact h
  rw [show pyStrip s
      = ((List.dropWhile isPyWs s).reverse.dropWhile isPyWs).reverse from rfl] at h2
  rw [List.reverse_reverse] at h2
  exact h2

/-- Stripping is idempotent. -/
theorem pyStrip_idem (s : Str) : pyStrip (pyStrip s) = pyStrip s := by
  cases hp : pyStrip s with
  | nil => rfl
  | cons c rest =>
    have hc : isPyWs c = false := pyStrip_head_false s c (by rw [hp]; rfl)
    have hdrop : List.dropWhile isPyWs (c :: rest) = c :: rest := by
      rw [List.dropWhile_cons, if_neg (by rw [hc]; simp)]
    have hlast : ∀ hl : (c :: rest) ≠ [], ¬isPyWs ((c :: rest).getLast hl) = true := by
      intro hl
      have := pyStrip_last_false s ((c :: rest).getLast hl)
        (by rw [hp, List.getLast?_eq_getLast (c :: rest) hl])
      rw [this]
      simp
    show pyStrip (c :: rest) = c :: rest
    unfold pyStrip
    rw [hdrop]
    exact List.rdropWhile_eq_self_iff.mpr hlast

/-- Splitting never returns the empty list of lines. -/
theorem splitNl_ne_nil : ∀ s : Str, splitNl s ≠ []
  | [] => by simp [splitNl]
  | c :: cs => by
    unfold splitNl
    by_cases h : c = '\n'
    · simp [h]
    · simp only [h, if_false]
      rcases hs : splitNl cs with _ | ⟨l, ls⟩
      · simp
      · simp

/-- Joining the split lines reproduces the text. -/
theorem joinNl_splitNl : ∀ s : Str, joinNl (splitNl s) = s
  | [] => rfl
  | c :: cs => by
    unfold splitNl
    by_cases h : c = '\n'
    · simp only [h, if_true]
      rcases hs : splitNl cs with _ | ⟨l, ls⟩
      · exact absurd hs (splitNl_ne_nil cs)
      · show joinNl ([] :: l :: ls) = '\n' :: cs
        show [] ++ '\n' :: joinNl (l :: ls) = '\n' :: cs
        rw [List.nil_append, ← hs, joinNl_splitNl cs]
    · simp only [h, if_false]
      rcases hs : splitNl cs with _ | ⟨l, ls⟩
      · exact absurd hs (splitNl_ne_nil cs)
      · cases ls with
        | nil =>
          show joinNl [c :: l] = c :: cs
          show c :: l = c :: cs
          have := joinNl_splitNl cs
          rw [hs] at this
          rw [show joinNl [l] = l from rfl] at this
          rw [this]
        | cons l2 ls2 =>
          show joinNl ((c :: l) :: l2 :: ls2) = c :: cs
          show (c :: l) ++ '\n' :: joinNl (l2 :: ls2) = c :: cs
          have := joinNl_splitNl cs
          rw [hs] at this
          rw [show joinNl (l :: l2 :: ls2) = l ++ '\n' :: joinNl (l2 :: ls2) from rfl] at this
          rw [List.cons_append, this]

/-- On a stripped text that does not parse, the first detection step yields
nothing or the JSONL classification; the single-line OBJECT return is
impossible because the single line is the whole (unparseable) text. -/
theorem detectStep1_escape (s : Str) (hs : pyStrip s = s)
    (hfail : jsonLoads s = none) :
    detectStep1 s = none ∨ detectStep1 s = some DataFormat.JSONL := by
  unfold detectStep1
  by_cases hg : ((((pyStrip ((splitNl s).headD [])).head? == some '\x7b'))
      && (((pyStrip ((splitNl s).headD [])).getLast? == some '\x7d'))) = true
  · rw [if_pos hg]
    rcases hj : jsonLoads (pyStrip ((splitNl s).headD [])) with _ | v
    · exact Or.inl rfl
    · by_cases hlen : (splitNl s).length > 1
      · simp only [hlen, if_true]
        cases hv : validFirst5 (splitNl s)
        · simp
        · simp
      · exfalso
        have h1 : (splitNl s).length = 1 := by
          have h0 := splitNl_ne_nil s
          have : 0 < (splitNl s).length := List.length_pos.mpr h0
          omega
        obtain ⟨l, hl⟩ := List.length_eq_one.mp h1
        have hsl : s = l := by
          have := joinNl_splitNl s
          rw [hl] at this
          exact this.symm
        rw [hl] at hj
        rw [show ([l] : List Str).headD [] = l from rfl] at hj
        rw [← hsl] at hj
        rw [hs] at hj
        rw [hfail] at hj
        cases hj
  · rw [if_neg hg]
    exact Or.inl rfl

/-- When the first step classifies, detection returns its result. -/
theorem detectFormat_of_step1 (text : Str) (f : DataFormat)
    (hne : (pyStrip text).isEmpty = false)
    (h : detectStep1 (pyStrip text) = some f) :
    detectFormat text = f := by
  unfold detectFormat
  rw [hne]
  simp only [Bool.false_eq_true, if_false, h]

/-- When the text starts with a brace, does not parse, and escapes the
first step, detection reduces to the two truncated-input heuristics. -/
theorem detectFormat_eq_heuristic (text : Str)
    (hne : (pyStrip text).isEmpty = false)
    (hstep1 : detectStep1 (pyStrip text) = none)
    (hbrace : (pyStrip text).head? = some '\x7b')
    (hfail : jsonLoads (pyStrip text) = none) :
    detectFormat text =
      (if detectApiResponseHeuristic (pyStrip text) then DataFormat.API_RESPONSE
       else if detectJsonObjectHeuristic (pyStrip text) then DataFormat.JSON_OBJECT
       else DataFormat.UNKNOWN) := by
  have ha : ((pyStrip text).head? == some '[') = false := by
    rw [hbrace]
    decide
  have ho : ((pyStrip text).head? == some '\x7b') = true := by
    rw [hbrace]
    decide
  unfold detectFormat
  rw [hne]
  simp only [Bool.false_eq_true, if_false, hstep1, ha, ho, if_true, hfail]
  cases hapi : detectApiResponseHeuristic (pyStrip text)
  · simp only [Bool.false_eq_true, if_false]
    cases hobj : detectJsonObjectHeuristic (pyStrip text)
    · simp
    · simp
  · simp

/-- C7 (amended): for every text whose stripped form starts with a brace
and fails to parse as JSON (truncated mid-object), and which the earlier
line-records rule does not classify, the heuristic fallback applies with
the metadata tokens `code` and `status` only (the source checks just
these two, not `success`/`message`/`msg`): detection yields ENVELOPE
(API_RESPONSE) exactly when the text contains a quoted `code` or `status`
token and a quoted known array-field token; otherwise, when the text
matches a quoted-key-colon pattern, it yields OBJECT. -/
theorem c7_truncated_heuristic (text : Str)
    (hbrace : (pyStrip text).head? = some '\x7b')
    (hfail : jsonLoads (pyStrip text) = none)
    (hnl : detectFormat text ≠ DataFormat.JSONL) :
    (detectFormat text = DataFormat.API_RESPONSE ↔
      ((containsSub (quoteTok (strLit ("code"))) (pyStrip text)
          || containsSub (quoteTok (strLit ("status"))) (pyStrip text))
        && apiRespDataKeys.any
            (fun k => containsSub (quoteTok k) (pyStrip text))) = true) ∧
    (((containsSub (quoteTok (strLit ("code"))) (pyStrip text)
          || containsSub (quoteTok (strLit ("status"))) (pyStrip text))
        && apiRespDataKeys.any
            (fun k => containsSub (quoteTok k) (pyStrip text))) = false →
      detectJsonObjectHeuristic (pyStrip text) = true →
      detectFormat text = DataFormat.JSON_OBJECT) := by
  have hne : (pyStrip text).isEmpty = false := by
    cases hp : pyStrip text
    · rw [hp] at hbrace
      cases hbrace
    · rfl
  have hexpr : detectApiResponseHeuristic (pyStrip text)
      = ((containsSub (quoteTok (strLit ("code"))) (pyStrip text)
          || containsSub (quoteTok (strLit ("status"))) (pyStrip text))
        && apiRespDataKeys.any
            (fun k => containsSub (quoteTok k) (pyStrip text))) := rfl
  rcases detectStep1_escape (pyStrip text) (pyStrip_idem text) hfail with h1 | h1
  · have hdet := detectFormat_eq_heuristic text hne h1 hbrace hfail
    constructor
    · constructor
      · intro hA
        cases hapi : detectApiResponseHeuristic (pyStrip text)
        · exfalso
          rw [hapi] at hdet
          simp only [Bool.false_eq_true, if_false] at hdet
          cases hobj : detectJsonObjectHeuristic (pyStrip text)
          · rw [hobj] at hdet
            simp only [Bool.false_eq_true, if_false] at hdet
            rw [hdet] at hA
            cases hA
          · rw [hobj] at hdet
            simp only [if_true] at hdet
            rw [hdet] at hA
            cases hA
        · rw [← hexpr]
          exact hapi
      · intro hA
        rw [hdet, hexpr, hA]
        simp
    · intro hA hO
      rw [hdet, hexpr]
      simp only [hA, Bool.false_eq_true, if_false, hO, if_true]
  · exact absurd (detectFormat_of_step1 text DataFormat.JSONL hne h1) hnl

/-- C7 witness: the truncated prefix with a `code` token and a `results`
token is classified ENVELOPE by the fallback. -/
theorem c7_truncated_heuristic_witness :
    detectFormat c7WitInput = DataFormat.API_RESPONSE :=
  (c7_truncated_heuristic c7WitInput rfl rfl (by decide)).1.mpr rfl

/-- C7 counterexample: the truncated prefix
`\x7b"success":true,"results":[\x7b"x"` starts with a brace, fails to
parse, and contains the claim's metadata token `success` together with the
array-field token `results`; the claim says the fallback yields ENVELOPE,
but the code's heuristic tests only `code`/`status`, so detection yields
JSON_OBJECT. -/
theorem c7_success_token_not_envelope :
    (pyStrip c7CxInput).head? = some '\x7b' ∧
    jsonLoads (pyStrip c7CxInput) = none ∧
    containsSub (quoteTok (strLit ("success"))) c7CxInput = true ∧
    containsSub (quoteTok (strLit ("results"))) c7CxInput = true ∧
    detectFormat c7CxInput = DataFormat.JSON_OBJECT :=
  ⟨rfl, rfl, rfl, rfl, rfl⟩

/-- A newline-free text splits into itself alone. -/
theorem splitNl_no_nl : ∀ l : Str, '\n' ∉ l → splitNl l = [l]
  | [], _ => rfl
  | c :: cs, h => by
    unfold splitNl
    have hc : ¬(c = '\n') := fun hx => h (hx ▸ List.mem_cons_self c cs)
    rw [if_neg hc, splitNl_no_nl cs (fun hx => h (List.mem_cons_of_mem c hx))]

/-- Splitting after a newline-free first line peels it off. -/
theorem splitNl_append_nl : ∀ (l t : Str), '\n' ∉ l →
    splitNl (l ++ '\n' :: t) = l :: splitNl t
  | [], t, _ => by
    show splitNl ('\n' :: t) = [] :: splitNl t
    rfl
  | c :: cs, t, h => by
    have hc : ¬(c = '\n') := fun hx => h (hx ▸ List.mem_cons_self c cs)
    show splitNl (c :: (cs ++ '\n' :: t)) = (c :: cs) :: splitNl t
    conv_lhs => rw [splitNl]
    rw [if_neg hc, splitNl_append_nl cs t (fun hx => h (List.mem_cons_of_mem c hx))]

/-- Splitting a join of newline-free lines recovers the lines. -/
theorem splitNl_joinNl_free : ∀ ls : List Str, ls ≠ [] →
    (∀ l ∈ ls, '\n' ∉ l) → splitNl (joinNl ls) = ls
  | [], h, _ => absurd rfl h
  | [l], _, hf => by
    show splitNl l = [l]
    exact splitNl_no_nl l (hf l (List.mem_singleton.mpr rfl))
  | l :: l2 :: rest, _, hf => by
    show splitNl (l ++ '\n' :: joinNl (l2 :: rest)) = l :: l2 :: rest
    rw [splitNl_append_nl l (joinNl (l2 :: rest)) (hf l (List.mem_cons_self _ _)),
        splitNl_joinNl_free (l2 :: rest) (by simp)
          (fun x hx => hf x (List.mem_cons_of_mem l hx))]

/-- A string with non-whitespace ends strips to itself. -/
theorem pyStrip_eq_self (s : Str)
    (h1 : ∀ c, s.head? = some c → isPyWs c = false)
    (h2 : ∀ c, s.getLast? = some c → isPyWs c = false) : pyStrip s = s := by
  cases s with
  | nil => rfl
  | cons c rest =>
    have hc := h1 c rfl
    have hdrop : List.dropWhile isPyWs (c :: rest) = c :: rest := by
      rw [List.dropWhile_cons, if_neg (by rw [hc]; simp)]
    unfold pyStrip
    rw [hdrop]
    apply List.rdropWhile_eq_self_iff.mpr
    intro hl
    have := h2 ((c :: rest).getLast hl) (List.getLast?_eq_getLast _ hl)
    rw [this]
    simp

/-- The replicated JSONL text starts with the record's opening brace. -/
theorem repJoin_head (n : Nat) : (repJoin n).head? = some '\x7b' := by
  cases n with
  | zero => rfl
  | succ k => rfl

/-- The replicated JSONL text ends with the record's closing brace. -/
theorem repJoin_last (n : Nat) : (repJoin n).getLast? = some '\x7d' := by
  induction n with
  | zero => rfl
  | succ k ih =>
    have hstep : repJoin (k + 1) = recLine ++ '\n' :: repJoin k := rfl
    rw [hstep, List.getLast?_append_cons]
    have hne : repJoin k ≠ [] := by
      intro hx
      have := repJoin_head k
      rw [hx] at this
      cases this
    rw [show ('\n' :: repJoin k) = ['\n'] ++ repJoin k from rfl,
        List.getLast?_append_of_ne_nil ['\n'] hne]
    exact ih

/-- The replicated JSONL text is already stripped. -/
theorem repJoin_strip (n : Nat) : pyStrip (repJoin n) = repJoin n := by
  apply pyStrip_eq_self
  · intro c hc
    rw [repJoin_head n, Option.some.injEq] at hc
    rw [← hc]
    decide
  · intro c hc
    rw [repJoin_last n, Option.some.injEq] at hc
    rw [← hc]
    decide

/-- The JSONL line loop keeps every replicated record line. -/
theorem convLines_replicate (m : Nat) :
    convertJsonlLines (List.replicate m recLine)
      = (List.replicate m recLine, (m, ([] : List Warn))) := by
  induction m with
  | zero => rfl
  | succ k ih =>
    have hstep : ∀ ls : List Str, convertJsonlLines (recLine :: ls)
        = (recLine :: (convertJsonlLines ls).1,
           ((convertJsonlLines ls).2.1 + 1, (convertJsonlLines ls).2.2)) :=
      fun ls => rfl
    rw [List.replicate_succ, hstep, ih]

/-- Conversion of the replicated JSONL text keeps all lines and counts
them. -/
theorem convert_repJoin (n : Nat) :
    convertToJsonl (repJoin n) (some DataFormat.JSONL)
      = some ⟨repJoin n, n + 1, DataFormat.JSONL, []⟩ := by
  have hne : (pyStrip (repJoin n)).isEmpty = false := by
    rw [repJoin_strip n]
    have := repJoin_head n
    cases hx : repJoin n
    · rw [hx] at this
      cases this
    · rfl
  unfold convertToJsonl
  rw [hne]
  simp only [Bool.false_eq_true, if_false, Option.getD_some]
  show some (convertJsonl (repJoin n)) = _
  unfold convertJsonl
  rw [repJoin_strip n,
      show splitNl (repJoin n) = List.replicate (n + 1) recLine from
        splitNl_joinNl_free (List.replicate (n + 1) recLine) (by simp)
          (fun l hl => by rw [List.eq_of_mem_replicate hl]; decide),
      convLines_replicate (n + 1)]
  rfl

/-- Every batch the streaming parser yields has at most
`max chunkSize 1` records. -/
theorem chunksOfAux_mem_le (m : Nat) :
    ∀ (fuel : Nat) (l : List α) (b : List α),
      b ∈ chunksOfAux m fuel l → b.length ≤ m := by
  intro fuel
  induction fuel with
  | zero => intro l b h; simp [chunksOfAux] at h
  | succ f ih =>
    intro l b h
    cases l with
    | nil => simp [chunksOfAux] at h
    | cons x xs =>
      rw [show chunksOfAux m (f + 1) (x :: xs)
          = (x :: xs).take m :: chunksOfAux m f ((x :: xs).drop m) from rfl] at h
      rcases List.mem_cons.mp h with h | h
      · rw [h, List.length_take]
        omega
      · exact ih ((x :: xs).drop m) b h

/-- Batch bound for `chunksOf`. -/
theorem chunksOf_mem_le (n : Nat) (l : List α) (b : List α)
    (h : b ∈ chunksOf n l) : b.length ≤ max n 1 :=
  chunksOfAux_mem_le (max n 1) (l.length + 1) l b h

/-- C9 (amended): every batch yielded by the streaming parser has at most
`max chunkSize 1` records, for every format; but the peak materialized
data of the non-tabular path is not bounded by the batch size — it equals
the full converted line count, which grows with the input (the JSON path
first runs `content = file_obj.read()` and splits every line at once,
data_parser.py lines 421 and 437). -/
theorem c9_batch_bound_json_materializes_all (chunkSize : Nat)
    (fmt : DataFormat) (text : Str) :
    (∀ b ∈ (parseFileRun chunkSize fmt text).batches,
      b.length ≤ max chunkSize 1) ∧
    (∀ n : Nat,
      (parseFileRun chunkSize DataFormat.JSONL (repJoin n)).materializedRows
        = n + 1) := by
  constructor
  · intro b hb
    unfold parseFileRun at hb
    by_cases hc : fmt = DataFormat.CSV
    · rw [if_pos hc] at hb
      exact chunksOf_mem_le chunkSize _ b hb
    · rw [if_neg hc] at hb
      rcases hconv : convertToJsonl text
          (some (if fmt = DataFormat.UNKNOWN then detectFormat text else fmt))
        with _ | r
      · rw [hconv] at hb
        simp at hb
      · rw [hconv] at hb
        dsimp only at hb
        by_cases hemp : r.content.isEmpty = true
        · rw [if_pos hemp] at hb
          simp at hb
        · rw [if_neg hemp] at hb
          exact chunksOf_mem_le chunkSize _ b hb
  · intro n
    unfold parseFileRun
    rw [if_neg (by intro hx; cases hx)]
    have hfmt : (if DataFormat.JSONL = DataFormat.UNKNOWN then
        detectFormat (repJoin n) else DataFormat.JSONL) = DataFormat.JSONL := by
      rw [if_neg (by intro hx; cases hx)]
    rw [hfmt, convert_repJoin n]
    have hemp : (repJoin n).isEmpty = false := by
      have := repJoin_head n
      cases hx : repJoin n
      · rw [hx] at this
        cases this
      · rfl
    dsimp only
    simp only [hemp, Bool.false_eq_true, if_false]
    show (splitNl (repJoin n)).length = n + 1
    rw [show splitNl (repJoin n) = List.replicate (n + 1) recLine from
        splitNl_joinNl_free (List.replicate (n + 1) recLine) (by simp)
          (fun l hl => by rw [List.eq_of_mem_replicate hl]; decide)]
    exact List.length_replicate (n + 1) recLine

/-- C9 witness: with batch size 2 and three input records, batches are
bounded by 2 while the JSON path materializes all 3 lines. -/
theorem c9_batch_bound_witness :
    (parseFileRun 2 DataFormat.JSONL (repJoin 2)).materializedRows = 3 :=
  (c9_batch_bound_json_materializes_all 2 DataFormat.JSONL (repJoin 2)).2 2

/-- C9 counterexample: no bound depending only on the batch size caps the
materialized rows of the streaming parser on line-delimited input — for
any candidate bound, a replicated JSONL input exceeds it, so peak working
memory grows with the total input size, contradicting the claim that it
is O(batch size) for all detected formats. -/
theorem c9_no_memory_bound :
    ¬ ∃ B : Nat → Nat, ∀ text : Str,
        (parseFileRun 10000 DataFormat.JSONL text).materializedRows
          ≤ B 10000 := by
  rintro ⟨B, hB⟩
  have h := hB (repJoin (B 10000))
  rw [(c9_batch_bound_json_materializes_all 10000 DataFormat.JSONL
      (repJoin (B 10000))).2 (B 10000)] at h
  omega

/-- A suffix stays a suffix under prepending. -/
theorem suffix_trans_pre (l m pre : Str) (h : l <:+ m) : l <:+ pre ++ m :=
  h.trans ⟨pre, rfl⟩

/-- Whitespace skipping returns a suffix. -/
theorem skipWsJ_suffix (cs : Str) : skipWsJ cs <:+ cs :=
  List.dropWhile_suffix isJsonWs

/-- The tail after the matched head of the whitespace-skipped input is a
suffix of the input. -/
theorem skip_cons_suffix (cs r : Str) (c : Char) (heq : skipWsJ cs = c :: r) :
    r <:+ cs :=
  (List.suffix_cons c r).trans (heq ▸ skipWsJ_suffix cs)

/-- Anything below the whitespace-skipped input is below the input. -/
theorem skip_suffix_to (cs x : Str) (h : x <:+ skipWsJ cs) : x <:+ cs :=
  h.trans (skipWsJ_suffix cs)

/-- The remainder of digit-taking is a suffix. -/
theorem takeDigits_suffix : ∀ cs : Str, (takeDigits cs).2 <:+ cs
  | [] => ⟨[], rfl⟩
  | c :: cs => by
    have hstep : takeDigits (c :: cs)
        = if isDigitCh c then (c :: (takeDigits cs).1, (takeDigits cs).2)
          else ([], c :: cs) := rfl
    rw [hstep]
    by_cases h : isDigitCh c = true
    · rw [if_pos h]
      exact (takeDigits_suffix cs).trans (List.suffix_cons c cs)
    · rw [if_neg h]

/-- A list is a suffix of itself with anything prepended. -/
theorem suffix_pre_self (pre m : Str) : m <:+ pre ++ m :=
  ⟨pre, rfl⟩

/-- The remainder of the fraction lexeme is a suffix. -/
theorem parseFracPart_suffix (r : Str) : (parseFracPart r).2 <:+ r := by
  unfold parseFracPart
  split
  · split
    · exact List.suffix_refl _
    · exact (takeDigits_suffix _).trans (suffix_pre_self (['.']) _)
  · exact List.suffix_refl _

/-- The remainder of the exponent lexeme is a suffix. -/
theorem parseExpPart_suffix (r : Str) : (parseExpPart r).2 <:+ r := by
  unfold parseExpPart
  split <;>
    first
      | exact List.suffix_refl _
      | (split
         · exact List.suffix_refl _
         · first
             | exact (takeDigits_suffix _).trans (suffix_pre_self (['e', '+']) _)
             | exact (takeDigits_suffix _).trans (suffix_pre_self (['e', '-']) _)
             | exact (takeDigits_suffix _).trans (suffix_pre_self (['e']) _)
             | exact (takeDigits_suffix _).trans (suffix_pre_self (['E', '+']) _)
             | exact (takeDigits_suffix _).trans (suffix_pre_self (['E', '-']) _)
             | exact (takeDigits_suffix _).trans (suffix_pre_self (['E']) _))

/-- A successful number parse leaves a suffix and yields a number value. -/
theorem parseNumCore_suffix_shape (neg : Bool) (cs1 : Str) (v : Jval) (rest : Str)
    (h : parseNumCore neg cs1 = some (v, rest)) :
    rest <:+ cs1 ∧ ∃ n suf, v = Jval.jnum n suf := by
  unfold parseNumCore at h
  split at h
  · exact Option.noConfusion h
  · split at h
    · exact Option.noConfusion h
    · split at h
      · exact Option.noConfusion h
      · rw [Option.some.injEq, Prod.mk.injEq] at h
        obtain ⟨hv, hr⟩ := h
        constructor
        · rw [← hr]
          exact ((parseExpPart_suffix _).trans (parseFracPart_suffix _)).trans
            (takeDigits_suffix cs1)
        · exact ⟨_, _, hv.symm⟩

/-- `parseNum` leaves a suffix and yields a number value. -/
theorem parseNum_suffix_shape (cs : Str) (v : Jval) (rest : Str)
    (h : parseNum cs = some (v, rest)) :
    rest <:+ cs ∧ ∃ n suf, v = Jval.jnum n suf := by
  unfold parseNum at h
  split at h
  · rename_i cs1
    obtain ⟨h1, h2⟩ := parseNumCore_suffix_shape true cs1 v rest h
    exact ⟨h1.trans (List.suffix_cons '-' cs1), h2⟩
  · exact parseNumCore_suffix_shape false cs v rest h

set_option maxHeartbeats 1600000 in
/-- A successful string-body parse leaves a suffix of the input. -/
theorem parseStringBody_suffix_aux :
    ∀ (n : Nat) (cs : Str), cs.length ≤ n →
      ∀ s rest, parseStringBody cs = some (s, rest) → rest <:+ cs := by
  intro n
  induction n with
  | zero =>
    intro cs hlen s rest h
    cases cs with
    | nil => exact Option.noConfusion h
    | cons c r => simp at hlen
  | succ k ih =>
    intro cs hlen s rest h
    cases cs with
    | nil => exact Option.noConfusion h
    | cons c r =>
      have hr : r.length ≤ k := by
        simp only [List.length_cons] at hlen
        omega
      unfold parseStringBody at h
      by_cases hq : c = '"'
      · rw [if_pos hq] at h
        rw [Option.some.injEq, Prod.mk.injEq] at h
        rw [← h.2]
        exact List.suffix_cons c r
      · rw [if_neg hq] at h
        by_cases hb : c = '\\'
        · rw [if_pos hb] at h
          split at h
          all_goals first
            | exact Option.noConfusion h
            | (obtain ⟨⟨s0, r0⟩, hrec, heq⟩ := Option.map_eq_some'.mp h
               rw [Prod.mk.injEq] at heq
               rw [← heq.2]
               refine (ih _ ?_ s0 r0 hrec).trans ?_
               · simp only [List.length_cons] at hr ⊢
                 omega
               · first
                   | exact (List.suffix_cons _ _).trans (List.suffix_cons _ _)
                   | exact (List.suffix_cons _ _).trans ((List.suffix_cons _ _).trans
                       ((List.suffix_cons _ _).trans ((List.suffix_cons _ _).trans
                         ((List.suffix_cons _ _).trans (List.suffix_cons _ _))))))
            | (split at h
               all_goals first
                 | exact Option.noConfusion h
                 | (obtain ⟨⟨s0, r0⟩, hrec, heq⟩ := Option.map_eq_some'.mp h
                    rw [Prod.mk.injEq] at heq
                    rw [← heq.2]
                    refine (ih _ ?_ s0 r0 hrec).trans ?_
                    · simp only [List.length_cons] at hr ⊢
                      omega
                    · exact (List.suffix_cons _ _).trans ((List.suffix_cons _ _).trans
                        ((List.suffix_cons _ _).trans ((List.suffix_cons _ _).trans
                          ((List.suffix_cons _ _).trans (List.suffix_cons _ _)))))))
        · rw [if_neg hb] at h
          split at h
          · exact Option.noConfusion h
          · obtain ⟨⟨s0, r0⟩, hrec, heq⟩ := Option.map_eq_some'.mp h
            rw [Prod.mk.injEq] at heq
            rw [← heq.2]
            exact (ih r hr s0 r0 hrec).trans (List.suffix_cons c r)

/-- Wrapper at the exact length. -/
theorem parseStringBody_suffix (cs s rest : Str)
    (h : parseStringBody cs = some (s, rest)) : rest <:+ cs :=
  parseStringBody_suffix_aux cs.length cs (Nat.le_refl _) s rest h

set_option maxHeartbeats 1600000 in
/-- Structure of successful parses: every parser returns a suffix of its
input; a parsed object ends at a closing brace (the remainder follows it),
a parsed array at a closing bracket, and the object/array parsers yield
only object/array values. -/
theorem parse_suffix_shape : ∀ fuel : Nat,
    (∀ cs v rest, parseVal fuel cs = some (v, rest) →
      rest <:+ cs ∧ ∀ ms, v = Jval.jobj ms → ('\x7d' :: rest) <:+ cs) ∧
    (∀ cs v rest, parseObjBody fuel cs = some (v, rest) →
      ('\x7d' :: rest) <:+ cs ∧ ∃ ms, v = Jval.jobj ms) ∧
    (∀ cs ms rest, parseMembers fuel cs = some (ms, rest) →
      ('\x7d' :: rest) <:+ cs) ∧
    (∀ cs v rest, parseArrBody fuel cs = some (v, rest) →
      (']' :: rest) <:+ cs ∧ ∃ es, v = Jval.jarr es) ∧
    (∀ cs es rest, parseElems fuel cs = some (es, rest) →
      (']' :: rest) <:+ cs) := by
  intro fuel
  induction fuel with
  | zero =>
    refine ⟨?_, ?_, ?_, ?_, ?_⟩ <;> intro cs a rest h <;> exact Option.noConfusion h
  | succ f ih =>
    obtain ⟨ihV, ihO, ihM, ihA, ihE⟩ := ih
    refine ⟨?_, ?_, ?_, ?_, ?_⟩
    · intro cs v rest h
      unfold parseVal at h
      split at h
      · rename_i rest1 heq
        obtain ⟨hsfx, ms0, hms⟩ := ihO rest1 v rest h
        refine ⟨((List.suffix_cons _ _).trans hsfx).trans
          (skip_cons_suffix cs rest1 _ heq), ?_⟩
        intro ms hv
        exact hsfx.trans (skip_cons_suffix cs rest1 _ heq)
      · rename_i rest1 heq
        obtain ⟨hsfx, es0, hes⟩ := ihA rest1 v rest h
        refine ⟨((List.suffix_cons _ _).trans hsfx).trans
          (skip_cons_suffix cs rest1 _ heq), ?_⟩
        intro ms hv
        rw [hes] at hv
        exact Jval.noConfusion hv
      · rename_i rest1 heq
        obtain ⟨⟨s0, r0⟩, hrec, heqp⟩ := Option.map_eq_some'.mp h
        rw [Prod.mk.injEq] at heqp
        obtain ⟨hv, hr⟩ := heqp
        constructor
        · rw [← hr]
          exact (parseStringBody_suffix rest1 s0 r0 hrec).trans
            (skip_cons_suffix cs rest1 _ heq)
        · intro ms hms
          rw [← hv] at hms
          exact Jval.noConfusion hms
      · rename_i rest1 heq
        rw [Option.some.injEq, Prod.mk.injEq] at h
        obtain ⟨hv, hr⟩ := h
        constructor
        · rw [← hr]
          refine skip_suffix_to cs rest1 ?_
          rw [heq]
          exact suffix_pre_self (['t', 'r', 'u', 'e']) rest1
        · intro ms hms
          rw [← hv] at hms
          exact Jval.noConfusion hms
      · rename_i rest1 heq
        rw [Option.some.injEq, Prod.mk.injEq] at h
        obtain ⟨hv, hr⟩ := h
        constructor
        · rw [← hr]
          refine skip_suffix_to cs rest1 ?_
          rw [heq]
          exact suffix_pre_self (['f', 'a', 'l', 's', 'e']) rest1
        · intro ms hms
          rw [← hv] at hms
          exact Jval.noConfusion hms
      · rename_i rest1 heq
        rw [Option.some.injEq, Prod.mk.injEq] at h
        obtain ⟨hv, hr⟩ := h
        constructor
        · rw [← hr]
          refine skip_suffix_to cs rest1 ?_
          rw [heq]
          exact suffix_pre_self (['n', 'u', 'l', 'l']) rest1
        · intro ms hms
          rw [← hv] at hms
          exact Jval.noConfusion hms
      · obtain ⟨hsfx, n0, suf0, hnum⟩ := parseNum_suffix_shape _ v rest h
        constructor
        · exact skip_suffix_to cs rest hsfx
        · intro ms hms
          rw [hnum] at hms
          exact Jval.noConfusion hms
    · intro cs v rest h
      unfold parseObjBody at h
      split at h
      · rename_i rest0 heq
        rw [Option.some.injEq, Prod.mk.injEq] at h
        obtain ⟨hv, hr⟩ := h
        constructor
        · rw [← hr]
          refine skip_suffix_to cs _ ?_
          rw [heq]
        · exact ⟨[], hv.symm⟩
      · obtain ⟨⟨ms0, r0⟩, hrec, heqp⟩ := Option.map_eq_some'.mp h
        rw [Prod.mk.injEq] at heqp
        obtain ⟨hv, hr⟩ := heqp
        constructor
        · rw [← hr]
          exact skip_suffix_to cs _ (ihM _ ms0 r0 hrec)
        · exact ⟨ms0, hv.symm⟩
    · intro cs ms rest h
      unfold parseMembers at h
      split at h
      · rename_i rest1 heq
        split at h
        · exact Option.noConfusion h
        · rename_i key rest2 heq2
          split at h
          · rename_i rest3 heq3
            split at h
            · exact Option.noConfusion h
            · rename_i v0 rest4 heq4
              split at h
              · rename_i rest5 heq5
                split at h
                · exact Option.noConfusion h
                · rename_i ms1 rest6 heq6
                  rw [Option.some.injEq, Prod.mk.injEq] at h
                  obtain ⟨hms, hr⟩ := h
                  rw [← hr]
                  have c6 := ihM rest5 ms1 rest6 heq6
                  have c5 := skip_cons_suffix rest4 rest5 ',' heq5
                  have c4 := (ihV rest3 v0 rest4 heq4).1
                  have c3 := skip_cons_suffix rest2 rest3 ':' heq3
                  have c2 := parseStringBody_suffix rest1 key rest2 heq2
                  have c1 := skip_cons_suffix cs rest1 '"' heq
                  exact ((((c6.trans c5).trans c4).trans c3).trans c2).trans c1
              · rename_i rest5 heq5
                rw [Option.some.injEq, Prod.mk.injEq] at h
                obtain ⟨hms, hr⟩ := h
                rw [← hr]
                have c5 : ('\x7d' :: rest5) <:+ rest4 := by
                  rw [← heq5]
                  exact skipWsJ_suffix rest4
                have c4 := (ihV rest3 v0 rest4 heq4).1
                have c3 := skip_cons_suffix rest2 rest3 ':' heq3
                have c2 := parseStringBody_suffix rest1 key rest2 heq2
                have c1 := skip_cons_suffix cs rest1 '"' heq
                exact (((c5.trans c4).trans c3).trans c2).trans c1
              · exact Option.noConfusion h
          · exact Option.noConfusion h
      · exact Option.noConfusion h
    · intro cs v rest h
      unfold parseArrBody at h
      split at h
      · rename_i rest0 heq
        rw [Option.some.injEq, Prod.mk.injEq] at h
        obtain ⟨hv, hr⟩ := h
        constructor
        · rw [← hr]
          refine skip_suffix_to cs _ ?_
          rw [heq]
        · exact ⟨[], hv.symm⟩
      · obtain ⟨⟨es0, r0⟩, hrec, heqp⟩ := Option.map_eq_some'.mp h
        rw [Prod.mk.injEq] at heqp
        obtain ⟨hv, hr⟩ := heqp
        constructor
        · rw [← hr]
          exact skip_suffix_to cs _ (ihE _ es0 r0 hrec)
        · exact ⟨es0, hv.symm⟩
    · intro cs es rest h
      unfold parseElems at h
      split at h
      · exact Option.noConfusion h
      · rename_i v0 rest1 heq1
        split at h
        · rename_i rest2 heq2
          split at h
          · exact Option.noConfusion h
          · rename_i es1 rest3 heq3
            rw [Option.some.injEq, Prod.mk.injEq] at h
            obtain ⟨hes, hr⟩ := h
            rw [← hr]
            have c3 := ihE rest2 es1 rest3 heq3
            have c2 := skip_cons_suffix rest1 rest2 ',' heq2
            have c1 := (ihV cs v0 rest1 heq1).1
            exact (c3.trans c2).trans c1
        · rename_i rest2 heq2
          rw [Option.some.injEq, Prod.mk.injEq] at h
          obtain ⟨hes, hr⟩ := h
          rw [← hr]
          have c2 : (']' :: rest2) <:+ rest1 := by
            rw [← heq2]
            exact skipWsJ_suffix rest1
          have c1 := (ihV cs v0 rest1 heq1).1
          exact c2.trans c1
        · exact Option.noConfusion h

/-- JSON whitespace is Python whitespace. -/
theorem jsonWs_imp_pyWs (c : Char) (h : isJsonWs c = true) : isPyWs c = true := by
  simp only [isJsonWs, Bool.or_eq_true, beq_iff_eq] at h
  rcases h with ((h | h) | h) | h <;> rw [h] <;> decide

/-- A parsed object value can only come from an opening brace after the
whitespace skip. -/
theorem parseVal_jobj_head (fuel : Nat) (cs : Str) (ms : List (Str × Jval))
    (rest : Str) (h : parseVal fuel cs = some (Jval.jobj ms, rest)) :
    ∃ tail, skipWsJ cs = '\x7b' :: tail := by
  cases fuel with
  | zero => exact Option.noConfusion h
  | succ f =>
    unfold parseVal at h
    split at h
    · rename_i tail heq
      exact ⟨tail, heq⟩
    · rename_i rest1 heq
      obtain ⟨_, es0, hes⟩ := (parse_suffix_shape f).2.2.2.1 rest1 _ rest h
      exact absurd hes (by intro hx; cases hx)
    · obtain ⟨⟨s0, r0⟩, hrec, heqp⟩ := Option.map_eq_some'.mp h
      rw [Prod.mk.injEq] at heqp
      exact Jval.noConfusion heqp.1
    · rw [Option.some.injEq, Prod.mk.injEq] at h
      exact Jval.noConfusion h.1
    · rw [Option.some.injEq, Prod.mk.injEq] at h
      exact Jval.noConfusion h.1
    · rw [Option.some.injEq, Prod.mk.injEq] at h
      exact Jval.noConfusion h.1
    · obtain ⟨_, n0, suf0, hnum⟩ := parseNum_suffix_shape _ _ rest h
      exact absurd hnum (by intro hx; cases hx)

/-- Inversion of a successful load: one parsed value and an all-whitespace
remainder. -/
theorem jsonLoads_inv (s : Str) (v : Jval) (h : jsonLoads s = some v) :
    ∃ rest, parseVal (3 * s.length + 3) s = some (v, rest)
      ∧ skipWsJ rest = [] := by
  unfold jsonLoads at h
  split at h
  · rename_i v0 rest heq
    split at h
    · rw [Option.some.injEq] at h
      refine ⟨rest, by rw [← h]; exact heq, ?_⟩
      rename_i hemp
      cases hx : skipWsJ rest with
      | nil => rfl
      | cons a as =>
        rw [hx] at hemp
        cases hemp
    · exact Option.noConfusion h
  · exact Option.noConfusion h

/-- A stripped string that loads as a JSON object starts with an opening
brace and ends with a closing brace, as `detect_format`'s first step
requires. -/
theorem loads_jobj_bounds (s : Str) (ms : List (Str × Jval))
    (h : jsonLoads s = some (Jval.jobj ms))
    (hhead : ∀ c, s.head? = some c → isPyWs c = false)
    (hlast : ∀ c, s.getLast? = some c → isPyWs c = false) :
    s.head? = some '\x7b' ∧ s.getLast? = some '\x7d' := by
  obtain ⟨rest, hpv, hrest⟩ := jsonLoads_inv s _ h
  have hskip : skipWsJ s = s := by
    cases s with
    | nil => rfl
    | cons c cs =>
      have hc := hhead c rfl
      have hcj : isJsonWs c = false := by
        cases hx : isJsonWs c
        · rfl
        · exfalso
          have h2 := jsonWs_imp_pyWs c hx
          rw [hc] at h2
          cases h2
      show List.dropWhile isJsonWs (c :: cs) = c :: cs
      rw [List.dropWhile_cons, if_neg (by rw [hcj]; simp)]
  obtain ⟨tail, htail⟩ := parseVal_jobj_head _ s ms rest hpv
  rw [hskip] at htail
  constructor
  · rw [htail]
    rfl
  · have hsfx : ('\x7d' :: rest) <:+ s :=
      ((parse_suffix_shape _).1 s _ rest hpv).2 ms rfl
    have hrestnil : rest = [] := by
      cases hrx : rest with
      | nil => rfl
      | cons r0 rs =>
        exfalso
        rw [hrx] at hsfx hrest
        obtain ⟨pre, hpre⟩ := hsfx
        have hlast2 : s.getLast? = (r0 :: rs).getLast? := by
          rw [← hpre, List.getLast?_append_cons,
              show ('\x7d' :: r0 :: rs) = ['\x7d'] ++ (r0 :: rs) from rfl,
              List.getLast?_append_cons]
        have hall : ∀ x ∈ (r0 :: rs), isJsonWs x = true :=
          List.dropWhile_eq_nil_iff.mp hrest
        obtain ⟨y, hy⟩ : ∃ y, (r0 :: rs).getLast? = some y :=
          ⟨_, List.getLast?_eq_getLast _ (by simp)⟩
        have hyws := jsonWs_imp_pyWs y (hall y (List.mem_of_getLast?_eq_some hy))
        have h3 := hlast y (by rw [hlast2]; exact hy)
        rw [h3] at hyws
        cases hyws
    rw [hrestnil] at hsfx
    obtain ⟨pre, hpre⟩ := hsfx
    rw [← hpre, show (pre ++ ['\x7d']) = pre ++ '\x7d' :: [] from rfl,
        List.getLast?_append_cons]
    rfl

/-- A string strips to nothing exactly when it is all whitespace. -/
theorem pyStrip_nil_iff (l : Str) : pyStrip l = [] ↔ ∀ x ∈ l, isPyWs x = true := by
  unfold pyStrip
  rw [List.rdropWhile_eq_nil_iff]
  constructor
  · intro h x hx
    rw [← List.takeWhile_append_dropWhile isPyWs l] at hx
    rcases List.mem_append.mp hx with hx | hx
    · exact List.mem_takeWhile_imp hx
    · exact h x hx
  · intro h x hx
    exact h x ((List.dropWhile_suffix isPyWs).sublist.subset hx)

/-- A line is blank exactly when it is all whitespace. -/
theorem nonBlank_false_iff (l : Str) :
    nonBlank l = false ↔ ∀ x ∈ l, isPyWs x = true := by
  unfold nonBlank
  constructor
  · intro h
    apply (pyStrip_nil_iff l).mp
    cases hy : pyStrip l with
    | nil => rfl
    | cons a as =>
      rw [hy] at h
      cases h
  · intro h
    rw [(pyStrip_nil_iff l).mpr h]
    rfl

/-- Prepending whitespace does not change blankness. -/
theorem nonBlank_cons_ws (c : Char) (l : Str) (h : isPyWs c = true) :
    nonBlank (c :: l) = nonBlank l := by
  have hiff : (nonBlank (c :: l) = false) ↔ (nonBlank l = false) := by
    rw [nonBlank_false_iff, nonBlank_false_iff]
    constructor
    · intro ha x hxm
      exact ha x (List.mem_cons_of_mem c hxm)
    · intro ha x hxm
      rcases List.mem_cons.mp hxm with hh | hh
      · rw [hh]
        exact h
      · exact ha x hh
  cases hx : nonBlank (c :: l) <;> cases hy : nonBlank l
  · rfl
  · exact absurd (hiff.mp hx) (by rw [hy]; simp)
  · exact absurd (hiff.mpr hy) (by rw [hx]; simp)
  · rfl

/-- Appending whitespace does not change blankness. -/
theorem nonBlank_append_ws (l : Str) (c : Char) (h : isPyWs c = true) :
    nonBlank (l ++ [c]) = nonBlank l := by
  have hiff : (nonBlank (l ++ [c]) = false) ↔ (nonBlank l = false) := by
    rw [nonBlank_false_iff, nonBlank_false_iff]
    constructor
    · intro ha x hxm
      exact ha x (List.mem_append_left [c] hxm)
    · intro ha x hxm
      rcases List.mem_append.mp hxm with hh | hh
      · exact ha x hh
      · rw [List.mem_singleton.mp hh]
        exact h
  cases hx : nonBlank (l ++ [c]) <;> cases hy : nonBlank l
  · rfl
  · exact absurd (hiff.mp hx) (by rw [hy]; simp)
  · exact absurd (hiff.mpr hy) (by rw [hx]; simp)
  · rfl

/-- Splitting after appending one character: a newline adds an empty last
line, anything else lands on the last line. -/
theorem splitNl_concat : ∀ (xs : Str) (c : Char),
    splitNl (xs ++ [c])
      = if c = '\n' then splitNl xs ++ [[]] else appendLast (splitNl xs) c
  | [], c => by
    by_cases hc : c = '\n'
    · rw [if_pos hc, hc]
      rfl
    · rw [if_neg hc]
      show splitNl [c] = appendLast [[]] c
      rw [splitNl.eq_2, if_neg hc, splitNl.eq_1]
      rfl
  | x :: xs, c => by
    have ih := splitNl_concat xs c
    by_cases hx : x = '\n'
    · rw [hx]
      show splitNl ('\n' :: (xs ++ [c])) = _
      have h1 : splitNl ('\n' :: (xs ++ [c])) = [] :: splitNl (xs ++ [c]) := rfl
      have h2 : splitNl ('\n' :: xs) = [] :: splitNl xs := rfl
      rw [h1, ih]
      by_cases hc : c = '\n'
      · rw [if_pos hc, if_pos hc, h2]
        rfl
      · rw [if_neg hc, if_neg hc, h2]
        rcases hsp : splitNl xs with _ | ⟨l0, ls0⟩
        · exact absurd hsp (splitNl_ne_nil xs)
        · rfl
    · have h1 : splitNl (x :: (xs ++ [c])) =
          (match splitNl (xs ++ [c]) with
           | [] => [[x]]
           | l :: ls => (x :: l) :: ls) := by
        rw [splitNl.eq_2, if_neg hx]
      have h2 : splitNl (x :: xs) =
          (match splitNl xs with
           | [] => [[x]]
           | l :: ls => (x :: l) :: ls) := by
        rw [splitNl.eq_2, if_neg hx]
      show splitNl (x :: (xs ++ [c])) = _
      rw [h1, ih]
      rcases hsp : splitNl xs with _ | ⟨l0, ls0⟩
      · exact absurd hsp (splitNl_ne_nil xs)
      · by_cases hc : c = '\n'
        · rw [if_pos hc, if_pos hc, h2, hsp]
          rfl
        · rw [if_neg hc, if_neg hc, h2, hsp]
          cases ls0 with
          | nil => rfl
          | cons l1 ls1 => rfl

/-- Appending a whitespace character to the last line does not change the
non-blank line count. -/
theorem appendLast_count (c : Char) (h : isPyWs c = true) :
    ∀ ls : List Str,
      ((appendLast ls c).filter nonBlank).length = (ls.filter nonBlank).length
  | [] => by
    have hnb : nonBlank [c] = false :=
      (nonBlank_false_iff [c]).mpr (by
        intro x hx
        rw [List.mem_singleton.mp hx]
        exact h)
    show (([[c]] : List Str).filter nonBlank).length = 0
    rw [List.filter_cons, hnb]
    rfl
  | [l] => by
    have hnb := nonBlank_append_ws l c h
    show (([l ++ [c]] : List Str).filter nonBlank).length
      = (([l] : List Str).filter nonBlank).length
    rw [List.filter_cons, List.filter_cons, hnb]
    cases hx : nonBlank l <;> rfl
  | l :: l2 :: ls => by
    have ih := appendLast_count c h (l2 :: ls)
    show ((l :: appendLast (l2 :: ls) c).filter nonBlank).length
      = ((l :: l2 :: ls).filter nonBlank).length
    rw [List.filter_cons, List.filter_cons]
    cases hx : nonBlank l <;> simp [ih]

/-- Dropping leading whitespace does not change the non-blank line count. -/
theorem countNB_dropWhile : ∀ s : Str, countNB (List.dropWhile isPyWs s) = countNB s
  | [] => rfl
  | c :: cs => by
    by_cases hw : isPyWs c = true
    · rw [List.dropWhile_cons, if_pos hw]
      rw [countNB_dropWhile cs]
      by_cases hc : c = '\n'
      · rw [hc]
        show countNB cs = (((([] : Str) :: splitNl cs)).filter nonBlank).length
        rw [List.filter_cons]
        rfl
      · rcases hsp : splitNl cs with _ | ⟨l0, ls0⟩
        · exact absurd hsp (splitNl_ne_nil cs)
        · have hshape : splitNl (c :: cs) = (c :: l0) :: ls0 := by
            rw [splitNl.eq_2, if_neg hc, hsp]
          show countNB cs = countNB (c :: cs)
          unfold countNB
          rw [hshape, hsp, List.filter_cons, List.filter_cons,
              nonBlank_cons_ws c l0 hw]
          cases hx : nonBlank l0 <;> rfl
    · rw [List.dropWhile_cons, if_neg (by intro hx; exact hw hx)]

/-- Dropping trailing whitespace does not change the non-blank line
count. -/
theorem countNB_rdropWhile (s : Str) :
    countNB (List.rdropWhile isPyWs s) = countNB s := by
  induction s using List.reverseRecOn with
  | nil => rfl
  | append_singleton xs x ih =>
    rw [List.rdropWhile_concat]
    by_cases hw : isPyWs x = true
    · rw [if_pos hw, ih]
      unfold countNB
      rw [splitNl_concat]
      by_cases hc : x = '\n'
      · rw [if_pos hc, List.filter_append]
        have hnb : nonBlank ([] : Str) = false := rfl
        rw [show (([[]] : List Str).filter nonBlank) = [] from by
          rw [List.filter_cons, hnb]; rfl]
        rw [List.append_nil]
      · rw [if_neg hc, appendLast_count x hw]
    · rw [if_neg (by intro hx; exact hw hx)]

/-- Stripping does not change the non-blank line count: the converter's
row count over the stripped text equals the count over the raw input. -/
theorem countNB_pyStrip (s : Str) : countNB (pyStrip s) = countNB s := by
  unfold pyStrip
  rw [countNB_rdropWhile, countNB_dropWhile]

/-- Members of a split contain no newline. -/
theorem splitNl_mem_no_nl : ∀ (s : Str) (l : Str), l ∈ splitNl s → '\n' ∉ l
  | [], l, hm => by
    rw [show splitNl [] = [[]] from rfl] at hm
    rw [List.mem_singleton.mp hm]
    simp
  | c :: cs, l, hm => by
    by_cases hc : c = '\n'
    · rw [hc] at hm
      rw [show splitNl ('\n' :: cs) = [] :: splitNl cs from rfl] at hm
      rcases List.mem_cons.mp hm with h | h
      · rw [h]; simp
      · exact splitNl_mem_no_nl cs l h
    · rw [splitNl.eq_2, if_neg hc] at hm
      rcases hsp : splitNl cs with _ | ⟨l0, ls0⟩
      · exact absurd hsp (splitNl_ne_nil cs)
      · rw [hsp] at hm
        rcases List.mem_cons.mp hm with h | h
        · rw [h]
          intro hx
          rcases List.mem_cons.mp hx with h2 | h2
          · exact hc h2.symm
          · exact splitNl_mem_no_nl cs l0
              (by rw [hsp]; exact List.mem_cons_self _ _) h2
        · exact splitNl_mem_no_nl cs l
            (by rw [hsp]; exact List.mem_cons_of_mem _ h)

/-- Characters of a stripped string come from the string. -/
theorem mem_pyStrip (l : Str) (x : Char) (h : x ∈ pyStrip l) : x ∈ l :=
  (List.dropWhile_suffix isPyWs).sublist.subset
    ((List.rdropWhile_prefix isPyWs (List.dropWhile isPyWs l)).sublist.subset h)

/-- One unfolding step of the `_convert_jsonl` line loop. -/
theorem convLines_cons (l : Str) (ls : List Str) :
    convertJsonlLines (l :: ls) =
      (if (pyStrip l).isEmpty then convertJsonlLines ls
       else match jsonLoads (pyStrip l) with
            | some _ => (pyStrip l :: (convertJsonlLines ls).1,
                         (convertJsonlLines ls).2.1 + 1, (convertJsonlLines ls).2.2)
            | none => ((convertJsonlLines ls).1, (convertJsonlLines ls).2.1,
                       Warn.skippedLine :: (convertJsonlLines ls).2.2)) := rfl

/-- The line loop accounts for every non-blank line: each is either counted
as a row or recorded as a skipped-line warning. -/
theorem convLines_count : ∀ ls : List Str,
    (convertJsonlLines ls).2.1 + (convertJsonlLines ls).2.2.length
      = (ls.filter nonBlank).length
  | [] => rfl
  | l :: ls => by
    have ih := convLines_count ls
    rw [convLines_cons, List.filter_cons]
    cases he : (pyStrip l).isEmpty
    · have hnb : nonBlank l = true := by unfold nonBlank; rw [he]; rfl
      rw [hnb, if_neg Bool.false_ne_true, if_pos rfl]
      cases hj : jsonLoads (pyStrip l) <;>
        (dsimp only; simp only [List.length_cons]; omega)
    · have hnb : nonBlank l = false := by unfold nonBlank; rw [he]; rfl
      rw [hnb, if_pos rfl, if_neg Bool.false_ne_true]
      exact ih

/-- When every non-blank line parses, the line loop keeps exactly the
stripped non-blank lines, counts them all, and warns about nothing. -/
theorem convLines_all : ∀ ls : List Str,
    (∀ l ∈ ls, nonBlank l = true →
        ∃ ms, jsonLoads (pyStrip l) = some (Jval.jobj ms)) →
    convertJsonlLines ls
      = ((ls.filter nonBlank).map pyStrip, (ls.filter nonBlank).length, [])
  | [], _ => rfl
  | l :: ls, hobj => by
    have ih := convLines_all ls (fun x hx => hobj x (List.mem_cons_of_mem l hx))
    rw [convLines_cons, List.filter_cons]
    cases he : (pyStrip l).isEmpty
    · have hnb : nonBlank l = true := by unfold nonBlank; rw [he]; rfl
      obtain ⟨ms, hms⟩ := hobj l (List.mem_cons_self l ls) hnb
      rw [hnb, if_neg Bool.false_ne_true, if_pos rfl, hms, ih]
      rfl
    · have hnb : nonBlank l = false := by unfold nonBlank; rw [he]; rfl
      rw [hnb, if_pos rfl, if_neg Bool.false_ne_true]
      exact ih

/-- The forced line-records converter counts every kept row and every
dropped row: rows plus warnings equal the non-blank input lines. -/
theorem convertToJsonl_jsonl_count (t : Str) (r : ConvertResult)
    (h : convertToJsonl t (some DataFormat.JSONL) = some r) :
    r.rowCount + r.warnings.length = countNB t := by
  unfold convertToJsonl at h
  cases he : (pyStrip t).isEmpty
  · rw [he, if_neg Bool.false_ne_true, Option.getD_some] at h
    dsimp only at h
    injection h with h2
    subst h2
    show (convertJsonlLines (splitNl (pyStrip t))).2.1
        + (convertJsonlLines (splitNl (pyStrip t))).2.2.length = countNB t
    rw [convLines_count, ← countNB_pyStrip t]
    rfl
  · rw [he, if_pos rfl] at h
    injection h with h2
    subst h2
    have hnil : pyStrip t = [] := List.isEmpty_iff.mp he
    show 0 + 0 = countNB t
    rw [← countNB_pyStrip t, hnil]
    rfl

/-- The first line of a nonempty stripped text is non-blank. -/
theorem first_line_nonblank (s : Str) (hne : s ≠ []) (hs : pyStrip s = s) :
    nonBlank ((splitNl s).headD []) = true := by
  cases s with
  | nil => exact absurd rfl hne
  | cons c cs =>
    have hc : isPyWs c = false := pyStrip_head_false (c :: cs) c (by rw [hs]; rfl)
    have hcn : ¬(c = '\n') := by
      intro hx
      rw [hx] at hc
      exact absurd hc (by decide)
    rcases hsp : splitNl cs with _ | ⟨l0, ls0⟩
    · exact absurd hsp (splitNl_ne_nil cs)
    · have hshape : splitNl (c :: cs) = (c :: l0) :: ls0 := by
        rw [splitNl.eq_2, if_neg hcn, hsp]
      rw [hshape]
      show nonBlank (c :: l0) = true
      cases hnb : nonBlank (c :: l0)
      · exfalso
        have hw := (nonBlank_false_iff (c :: l0)).mp hnb c (List.mem_cons_self c l0)
        rw [hc] at hw
        exact Bool.false_ne_true hw
      · rfl

/-- The default first line of a split is a member of the split. -/
theorem headD_mem_splitNl (s : Str) : (splitNl s).headD [] ∈ splitNl s := by
  rcases hsp : splitNl s with _ | ⟨l0, ls0⟩
  · exact absurd hsp (splitNl_ne_nil s)
  · exact List.mem_cons_self l0 ls0

/-- `detect_format` classifies a multi-line text whose non-blank lines all
parse as JSON objects as JSONL: the first line satisfies the brace guard
and parses, the text has several lines, and the first five lines pass the
per-line check. -/
theorem detect_jsonl (text : Str)
    (hlen : 2 ≤ (splitNl (pyStrip text)).length)
    (hobj : ∀ l ∈ splitNl (pyStrip text), nonBlank l = true →
        ∃ ms, jsonLoads (pyStrip l) = some (Jval.jobj ms)) :
    detectFormat text = DataFormat.JSONL := by
  have hne : pyStrip text ≠ [] := by
    intro hx
    rw [hx] at hlen
    have h1 : (2 : Nat) ≤ 1 := hlen
    omega
  have hemp : (pyStrip text).isEmpty = false := List.isEmpty_eq_false.mpr hne
  have hfnb : nonBlank ((splitNl (pyStrip text)).headD []) = true :=
    first_line_nonblank (pyStrip text) hne (pyStrip_idem text)
  obtain ⟨ms, hms⟩ := hobj _ (headD_mem_splitNl (pyStrip text)) hfnb
  have hbounds := loads_jobj_bounds (pyStrip ((splitNl (pyStrip text)).headD [])) ms hms
      (fun c hc => pyStrip_head_false _ c hc)
      (fun c hc => pyStrip_last_false _ c hc)
  have hvalid : validFirst5 (splitNl (pyStrip text)) = true := by
    unfold validFirst5
    rw [List.all_eq_true]
    intro l hl
    have hmem : l ∈ splitNl (pyStrip text) := List.take_subset 5 _ hl
    cases he : (pyStrip l).isEmpty
    · have hnb : nonBlank l = true := by unfold nonBlank; rw [he]; rfl
      obtain ⟨ms', hms'⟩ := hobj l hmem hnb
      show ((pyStrip l).isEmpty ||
          (match jsonLoads (pyStrip l) with
           | some (Jval.jobj _) => true
           | _ => false)) = true
      rw [he, hms']
      rfl
    · show ((pyStrip l).isEmpty ||
          (match jsonLoads (pyStrip l) with
           | some (Jval.jobj _) => true
           | _ => false)) = true
      rw [he]
      rfl
  have hstep1 : detectStep1 (pyStrip text) = some DataFormat.JSONL := by
    simp only [detectStep1]
    rw [hbounds.1, hbounds.2]
    rw [if_pos (by decide)]
    rw [hms]
    dsimp only
    rw [if_pos (by omega : (splitNl (pyStrip text)).length > 1), if_pos hvalid]
  exact detectFormat_of_step1 text DataFormat.JSONL hemp hstep1

/-- C2: for every multi-line input whose every non-blank line parses as a
JSON object, detection returns the line-records classification (JSONL) and
conversion preserves the record count: the result holds exactly the
stripped non-blank lines joined by newlines, its row count equals the
number of non-blank input lines, one output line is emitted per input
record, and no warnings arise; in general the line-records converter
counts every kept row and every dropped malformed row individually, so
rows plus warnings always equal the non-blank input lines. -/
theorem c2_line_records (text : Str)
    (hlen : 2 ≤ (splitNl (pyStrip text)).length)
    (hobj : ∀ l ∈ splitNl (pyStrip text), nonBlank l = true →
        ∃ ms, jsonLoads (pyStrip l) = some (Jval.jobj ms)) :
    detectFormat text = DataFormat.JSONL ∧
    convertToJsonl text none = some
      ⟨joinNl (((splitNl (pyStrip text)).filter nonBlank).map pyStrip),
       countNB text, DataFormat.JSONL, []⟩ ∧
    (splitNl (joinNl (((splitNl (pyStrip text)).filter nonBlank).map pyStrip))).length
      = countNB text ∧
    ∀ t r, convertToJsonl t (some DataFormat.JSONL) = some r →
      r.rowCount + r.warnings.length = countNB t := by
  have hne : pyStrip text ≠ [] := by
    intro hx
    rw [hx] at hlen
    have h1 : (2 : Nat) ≤ 1 := hlen
    omega
  have hemp : (pyStrip text).isEmpty = false := List.isEmpty_eq_false.mpr hne
  have hdet : detectFormat text = DataFormat.JSONL := detect_jsonl text hlen hobj
  have hall := convLines_all (splitNl (pyStrip text)) hobj
  have hcnt : ((splitNl (pyStrip text)).filter nonBlank).length = countNB text := by
    rw [← countNB_pyStrip text]
    rfl
  refine ⟨hdet, ?_, ?_, ?_⟩
  · unfold convertToJsonl
    rw [hemp, if_neg Bool.false_ne_true, Option.getD_none, hdet]
    show some (convertJsonl text) = _
    unfold convertJsonl
    rw [hall, hcnt]
  · have hfree : ∀ l ∈ ((splitNl (pyStrip text)).filter nonBlank).map pyStrip,
        '\n' ∉ l := by
      intro l hl
      obtain ⟨l0, hl0, hmap⟩ := List.mem_map.mp hl
      rw [← hmap]
      intro hx
      exact splitNl_mem_no_nl (pyStrip text) l0 (List.mem_of_mem_filter hl0)
        (mem_pyStrip l0 '\n' hx)
    have hfnb : nonBlank ((splitNl (pyStrip text)).headD []) = true :=
      first_line_nonblank (pyStrip text) hne (pyStrip_idem text)
    have hmf : (splitNl (pyStrip text)).headD []
        ∈ (splitNl (pyStrip text)).filter nonBlank :=
      List.mem_filter.mpr ⟨headD_mem_splitNl (pyStrip text), hfnb⟩
    have hks : ((splitNl (pyStrip text)).filter nonBlank).map pyStrip ≠ [] :=
      List.ne_nil_of_mem (List.mem_map_of_mem pyStrip hmf)
    rw [splitNl_joinNl_free _ hks hfree, List.length_map]
    exact hcnt
  · exact fun t r h => convertToJsonl_jsonl_count t r h

/-- The claim's example input: two one-line JSON objects are detected as
line records and converted to two rows, byte-identically. -/
theorem c2_line_records_witness :
    detectFormat c2WitInput = DataFormat.JSONL ∧
    convertToJsonl c2WitInput none
      = some ⟨c2WitInput, 2, DataFormat.JSONL, []⟩ := by
  have h := c2_line_records c2WitInput (by decide)
    (by
      intro l hl hnb
      rw [show splitNl (pyStrip c2WitInput)
          = [strLit ("\x7b\"x\":1\x7d"), strLit ("\x7b\"x\":2\x7d")] from rfl] at hl
      rcases List.mem_cons.mp hl with h1 | h1
      · rw [h1]
        exact ⟨_, rfl⟩
      · rw [List.mem_singleton.mp h1]
        exact ⟨_, rfl⟩)
  exact ⟨h.1, h.2.1.trans (by rfl)⟩
